import Mathlib

/-!
# go-mail: an SMTP client (`mail.go`)

A shallow embedding of `Message.Send`, `sendrecv`, `dorecv` and `dosend`.

* A Go string is a sequence of bytes; `Str` lists them, one `Char` per byte.
* The network is explicit: `Env` fixes what the server and the transport will
  do, `readwrite` is the state of the buffered reader/writer pair, and every
  call on the connection is recorded in `readwrite.log`.
* `response` nodes live in a store and are linked by index, so that pointer
  assignments such as `*curr = *curr.next` keep their aliasing.
* Output to standard output (`fmt.Printf`) is not part of the model.
-/

namespace Mail

/-- A Go string: its bytes in order. -/
abbrev Str := List Char

/-- The bytes of a string literal. -/
def str (s : String) : Str := s.toList

/-- Address information: display name and the user@domain address. -/
structure Address where
  Name : Str
  Email : Str
deriving DecidableEq, Repr

/-- An attachment and its header information. -/
structure Attachment where
  ContentID : Str
  ContentType : Str
  TransferEncoding : Int
  Data : List Nat
deriving DecidableEq, Repr

/-- An email message. -/
structure Message where
  From : Address
  To : List Address
  CC : List Address
  BCC : List Address
  Body : Str
  Attachments : List Attachment
deriving DecidableEq, Repr

/-- SMTP server parameters. -/
structure SMTP where
  Host : Str
  Port : Int
deriving DecidableEq, Repr

/-- A node of the linked list of reply texts; `next` points into the store
(`none` is the nil pointer). -/
structure response where
  text : Str
  next : Option Nat
deriving DecidableEq, Repr

/-- The error values of the package, followed by the errors of the libraries it
calls: `os.EOF` from the reader, `os.EINVAL` from `strconv.Atoi`, and a
transport failure from `net` or `bufio`. -/
inductive Error where
  | ErrInvalidFromValue
  | ErrNoRecipients
  | ErrInvalidToValue
  | ErrBodyUndefined
  | ErrHostUndefined
  | ErrPortUndefined
  | ErrNotReady
  | ErrHeloNotAccepted
  | ErrDataNotAccepted
  | ErrQuitNotAccepted
  | EOF
  | EINVAL
  | transport (code : Nat)
deriving DecidableEq, Repr

/-- One call on the connection. -/
inductive Event where
  | dial (host : Str) (port : Int)
  | read (buf : Str)
  | write (m : Str)
  | flush
  | close
deriving DecidableEq, Repr

/-- What the outside world will do during one `Send`.
* `Dial` is the error of `net.Dial` (`none`: the connection opens);
* `greeting` are the bytes the server sends on connect;
* `reply k c` are the bytes the server sends back when the bytes `c` reach it
  as its `k`-th delivery (a reply script when it ignores `c`);
* `ioerr k` is the error returned by a `WriteString` or `Flush` that is the
  `k`-th call on the connection;
* `Close` is the error of `conn.Close`. -/
structure Env where
  Dial : Option Error
  greeting : Str
  reply : Nat → Str → Str
  ioerr : Nat → Option Error
  Close : Option Error

/-- The buffered reader and writer over the connection.
* `r`: bytes received and not yet read;
* `w`: bytes written and not yet flushed;
* `nsent`: number of deliveries made to the server;
* `log`: the calls made so far, oldest first. -/
structure readwrite where
  r : Str
  w : Str
  nsent : Nat
  log : List Event
deriving DecidableEq, Repr

/-- How a call ends: it returns, or the Go runtime stops the program on an
index out of range. `diverge` is the model running out of fuel. -/
inductive Exit (α : Type) where
  | ret (a : α)
  | panic
  | diverge
deriving DecidableEq, Repr

/-- The three results of `dorecv` and `sendrecv`, with the store holding the
nodes that `rtext` points into. -/
structure Recv where
  rcode : Int
  rtext : Option Nat
  err : Option Error
  store : List response
deriving DecidableEq, Repr

/-! ## Library functions used by the package -/

/-- All pieces of `s` around each instance of the byte `sep`. -/
def splitAll (sep : Char) : Str → List Str
  | [] => [[]]
  | c :: cs =>
    if c = sep then [] :: splitAll sep cs
    else
      match splitAll sep cs with
      | [] => [[c]]
      | p :: ps => (c :: p) :: ps

/-- At most `n + 1` pieces of `s` around the byte `sep`, the last one being the
unsplit remainder. -/
def splitAtMost (sep : Char) : Nat → Str → List Str
  | 0, s => [s]
  | _ + 1, [] => [[]]
  | n + 1, c :: cs =>
    if c = sep then [] :: splitAtMost sep n cs
    else
      match splitAtMost sep (n + 1) cs with
      | [] => [[c]]
      | p :: ps => (c :: p) :: ps

/-- The call `strings.Split(s, sep, n)` of the Go release the package is written
for, with a one-byte separator: `s` split around each instance of `sep`; if
`n > 0` at most `n` pieces are returned, the last being the unsplit remainder,
and `n = 0` sets no limit. -/
def Split (s : Str) (sep : Char) (n : Nat) : List Str :=
  match n with
  | 0 => splitAll sep s
  | k + 1 => splitAtMost sep k s

/-- Value of a decimal digit. -/
def digitVal (c : Char) : Option Nat :=
  if 48 ≤ c.toNat ∧ c.toNat ≤ 57 then some (c.toNat - 48) else none

/-- Decimal value of a string of digits read left to right, starting from `acc`. -/
def digitsVal : Nat → Str → Option Nat
  | acc, [] => some acc
  | acc, c :: cs =>
    match digitVal c with
    | none => none
    | some d => digitsVal (acc * 10 + d) cs

/-- The call `strconv.Atoi(s)`: an optional sign followed by one or more decimal
digits; anything else is `os.EINVAL` with value 0. The package applies it to
three bytes only, where no range error arises. -/
def Atoi (s : Str) : Int × Option Error :=
  match s with
  | [] => (0, some .EINVAL)
  | c :: cs =>
    if c = '+' then
      match cs with
      | [] => (0, some .EINVAL)
      | _ => match digitsVal 0 cs with
        | none => (0, some .EINVAL)
        | some v => ((v : Int), none)
    else if c = '-' then
      match cs with
      | [] => (0, some .EINVAL)
      | _ => match digitsVal 0 cs with
        | none => (0, some .EINVAL)
        | some v => (-(v : Int), none)
    else
      match digitsVal 0 (c :: cs) with
      | none => (0, some .EINVAL)
      | some v => ((v : Int), none)

/-- The bytes up to and including the first `delim`, the bytes after it, and no
error; when there is no `delim` all the bytes are returned with `os.EOF`. -/
def readUntil (delim : Char) : Str → Str × Str × Option Error
  | [] => ([], [], some .EOF)
  | c :: cs =>
    if c = delim then ([c], cs, none)
    else
      let x := readUntil delim cs
      (c :: x.1, x.2.1, x.2.2)

/-- The call `rw.r.ReadString(delim)`: the line read, its error, and the reader
after the call. -/
def readwrite.ReadString (rw : readwrite) (delim : Char) : Str × Option Error × readwrite :=
  let x := readUntil delim rw.r
  (x.1, x.2.2, { rw with r := x.2.1, log := rw.log ++ [Event.read x.1] })

/-- The call `rw.w.WriteString(m)`: the bytes are buffered unless the call fails. -/
def readwrite.WriteString (env : Env) (rw : readwrite) (m : Str) : Option Error × readwrite :=
  match env.ioerr rw.log.length with
  | none => (none, { rw with w := rw.w ++ m, log := rw.log ++ [Event.write m] })
  | some e => (some e, { rw with log := rw.log ++ [Event.write m] })

/-- The call `rw.w.Flush()`: unless it fails, the buffered bytes reach the server
and the server's answer to them is received. -/
def readwrite.Flush (env : Env) (rw : readwrite) : Option Error × readwrite :=
  match env.ioerr rw.log.length with
  | none =>
    (none, { r := rw.r ++ env.reply rw.nsent rw.w, w := [], nsent := rw.nsent + 1,
             log := rw.log ++ [Event.flush] })
  | some e => (some e, { rw with log := rw.log ++ [Event.flush] })

/-! ## The store of `response` nodes -/

/-- The node that `new(response)` allocates. -/
def blank : response := { text := [], next := none }

/-- The statement `p.text = t`. -/
def setText (st : List response) (p : Nat) (t : Str) : List response :=
  st.modify (fun n => { n with text := t }) p

/-- The statement `p.next = q`. -/
def setNext (st : List response) (p : Nat) (q : Option Nat) : List response :=
  st.modify (fun n => { n with next := q }) p

/-- The texts of the list that starts at `p`, following `next` at most `fuel` times. -/
def texts (st : List response) : Nat → Option Nat → List Str
  | 0, _ => []
  | _ + 1, none => []
  | fuel + 1, some p =>
    match st[p]? with
    | none => []
    | some n => n.text :: texts st fuel n.next

/-- The texts of the whole list that starts at `p`. -/
def listTexts (st : List response) (p : Option Nat) : List Str :=
  texts st (st.length + 1) p

/-! ## `dorecv`, `dosend`, `sendrecv` -/

/-- The loop of `dorecv`, one iteration per unit of fuel. `i` is the loop counter,
`rtext` and `curr` the two pointers, `st` the store. -/
def dorecvLoop : Nat → Nat → Option Nat → Option Nat → List response → readwrite →
    Exit Recv × readwrite
  | 0, _, _, _, _, rw => (Exit.diverge, rw)
  | fuel + 1, i, rtext, curr, st, rw =>
    -- buf, err = rw.r.ReadString('\n')
    let x := rw.ReadString '\n'
    let buf := x.1
    let err := x.2.1
    let rw := x.2.2
    if err ≠ none then
      (Exit.ret { rcode := 0, rtext := rtext, err := err, store := st }, rw)
    else
      -- if len(buf) > 3 && buf[3] != 45 { done = true }
      let done : Bool := decide (buf.length > 3) && decide (buf[3]? ≠ some '-')
      if i = 0 then
        -- rtext = new(response)
        let p := st.length
        let st := st ++ [blank]
        -- rtext.text = buf[4:]
        if buf.length < 4 then (Exit.panic, rw)
        else
          let st := setText st p (buf.drop 4)
          -- curr = rtext
          if done then
            let a := Atoi (buf.take 3)
            (Exit.ret { rcode := a.1, rtext := some p, err := a.2, store := st }, rw)
          else dorecvLoop fuel (i + 1) (some p) (some p) st rw
      else
        match curr with
        | none => (Exit.panic, rw)
        | some c =>
          -- curr.next = new(response)
          let q := st.length
          let st := st ++ [blank]
          let st := setNext st c (some q)
          -- *curr = *curr.next
          match st[c]? with
          | none => (Exit.panic, rw)
          | some cn =>
            match cn.next with
            | none => (Exit.panic, rw)
            | some nx =>
              match st[nx]? with
              | none => (Exit.panic, rw)
              | some nn =>
                let st := st.set c nn
                -- curr.text = buf[4:]
                if buf.length < 4 then (Exit.panic, rw)
                else
                  let st := setText st c (buf.drop 4)
                  if done then
                    let a := Atoi (buf.take 3)
                    (Exit.ret { rcode := a.1, rtext := rtext, err := a.2, store := st }, rw)
                  else dorecvLoop fuel (i + 1) rtext curr st rw

/-- The function `dorecv`: read one reply. Every iteration of its loop reads at
least one byte or returns, so the length of the unread input bounds the number
of iterations. -/
def dorecv (rw : readwrite) : Exit Recv × readwrite :=
  dorecvLoop (rw.r.length + 1) 0 none none [] rw

/-- The function `dosend`. Its result `err` is never assigned: the results of
`WriteString` and `Flush` are dropped. -/
def dosend (env : Env) (rw : readwrite) (m : Str) : Option Error × readwrite :=
  let err : Option Error := none
  let rw := (rw.WriteString env m).2
  if err ≠ none then (err, rw)
  else
    let rw := (rw.Flush env).2
    (err, rw)

/-- The function `sendrecv`. -/
def sendrecv (env : Env) (rw : readwrite) (m : Str) : Exit Recv × readwrite :=
  let x := dosend env rw m
  if x.1 ≠ none then
    (Exit.ret { rcode := 0, rtext := none, err := x.1, store := [] }, x.2)
  else dorecv x.2

/-! ## `Message.Send` -/

/-- Whether a statement sequence runs on to the next statement or has executed
`return` with `err` set. -/
inductive Ctl where
  | next
  | returned (err : Option Error)
deriving DecidableEq, Repr

/-- Sequencing: run `f` when `x` ran on, stop where `x` stopped otherwise. -/
def andThen (x : Exit Ctl × readwrite) (f : readwrite → Exit Ctl × readwrite) :
    Exit Ctl × readwrite :=
  match x.1 with
  | Exit.ret Ctl.next => f x.2
  | _ => x

/-- The double quote byte. -/
def dq : Char := Char.ofNat 34

/-- `fmt.Sprintf("EHLO %s\r\n", d)`. -/
def fmtEHLO (d : Str) : Str := str "EHLO " ++ d ++ str "\r\n"

/-- `fmt.Sprintf("HELO %s\r\n", d)`. -/
def fmtHELO (d : Str) : Str := str "HELO " ++ d ++ str "\r\n"

/-- `fmt.Sprintf("MAIL FROM:<%s>\r\n", email)`. -/
def fmtMailFrom (email : Str) : Str := str "MAIL FROM:<" ++ email ++ str ">\r\n"

/-- `fmt.Sprintf("MAIL FROM:\"%s\"<%s>\r\n", name, email)`. -/
def fmtMailFromNamed (name email : Str) : Str :=
  str "MAIL FROM:" ++ [dq] ++ name ++ [dq] ++ str "<" ++ email ++ str ">\r\n"

/-- `fmt.Sprintf("RCPT TO:<%s>\r\n", email)`. -/
def fmtRcptTo (email : Str) : Str := str "RCPT TO:<" ++ email ++ str ">\r\n"

/-- `fmt.Sprintf("RCPT TO:\"%s\"<%s>\r\n", name, email)`. -/
def fmtRcptToNamed (name email : Str) : Str :=
  str "RCPT TO:" ++ [dq] ++ name ++ [dq] ++ str "<" ++ email ++ str ">\r\n"

/-- The command that starts a mail transaction (lines 157-161). -/
def mailCmd (m : Message) : Str :=
  if m.From.Name.length = 0 then fmtMailFrom m.From.Email
  else fmtMailFromNamed m.From.Name m.From.Email

/-- The command for one recipient (lines 175-179 and 193-197). -/
def rcptCmd (a : Address) : Str :=
  if a.Name.length > 0 then fmtRcptToNamed a.Name a.Email else fmtRcptTo a.Email

/-- The recurring step of `Send`:
`rcode, rtext, err = sendrecv(rw, m); if err != nil { return };
 if rcode != want { err = e; return }`. -/
def exchange (env : Env) (rw : readwrite) (m : Str) (want : Int) (e : Error) :
    Exit Ctl × readwrite :=
  let x := sendrecv env rw m
  match x.1 with
  | Exit.ret v =>
    if v.err ≠ none then (Exit.ret (Ctl.returned v.err), x.2)
    else if v.rcode ≠ want then (Exit.ret (Ctl.returned (some e)), x.2)
    else (Exit.ret Ctl.next, x.2)
  | Exit.panic => (Exit.panic, x.2)
  | Exit.diverge => (Exit.diverge, x.2)

/-- A recipient loop `for k, l := 0, bound; k < l; k++` with `rem` iterations
left. Both recipient loops of `Send` have this body, which reads `m.To[k]`;
the first runs it with `bound = len(m.To)`, the second with `bound = len(m.CC)`. -/
def rcptLoop (env : Env) (To : List Address) : Nat → Nat → readwrite → Exit Ctl × readwrite
  | 0, _, rw => (Exit.ret Ctl.next, rw)
  | rem + 1, k, rw =>
    match To[k]? with
    | none => (Exit.panic, rw)
    | some a =>
      andThen (exchange env rw (rcptCmd a) 250 Error.ErrInvalidToValue)
        (fun rw => rcptLoop env To rem (k + 1) rw)

/-- The step `rcode, rtext, err = sendrecv(rw, ".\r\n"); if err != nil { return }`:
the reply code is not looked at. -/
def dotStep (env : Env) (rw : readwrite) : Exit Ctl × readwrite :=
  let x := sendrecv env rw (str ".\r\n")
  match x.1 with
  | Exit.ret v =>
    if v.err ≠ none then (Exit.ret (Ctl.returned v.err), x.2)
    else (Exit.ret Ctl.next, x.2)
  | Exit.panic => (Exit.panic, x.2)
  | Exit.diverge => (Exit.diverge, x.2)

/-- The branch `if i >= len(m.BCC)` of the transaction: the two recipient loops,
`DATA` and the terminator line. -/
def combined (env : Env) (m : Message) (rw : readwrite) : Exit Ctl × readwrite :=
  andThen (rcptLoop env m.To m.To.length 0 rw) fun rw =>
  andThen (rcptLoop env m.To m.CC.length 0 rw) fun rw =>
  andThen (exchange env rw (str "DATA\r\n") 354 Error.ErrDataNotAccepted) fun rw =>
  dotStep env rw

/-- The body of the transaction loop for index `i` (lines 156-240). -/
def transaction (env : Env) (m : Message) (i : Nat) (rw : readwrite) : Exit Ctl × readwrite :=
  andThen (exchange env rw (mailCmd m) 250 Error.ErrInvalidFromValue) fun rw =>
  andThen (if i ≥ m.BCC.length then combined env m rw else (Exit.ret Ctl.next, rw)) fun rw =>
  exchange env rw (str "QUIT\r\n") 221 Error.ErrQuitNotAccepted

/-- The loop `for i, j := 0, 1+len(m.BCC); i < j; i++` with `rem = j - i`
iterations left. -/
def txLoop (env : Env) (m : Message) : Nat → Nat → readwrite → Exit Ctl × readwrite
  | 0, _, rw => (Exit.ret Ctl.next, rw)
  | rem + 1, i, rw =>
    andThen (transaction env m i rw) (fun rw => txLoop env m rem (i + 1) rw)

/-- Reading the greeting (lines 123-131). -/
def greet (rw : readwrite) : Exit Ctl × readwrite :=
  let x := dorecv rw
  match x.1 with
  | Exit.ret v =>
    if v.err ≠ none then (Exit.ret (Ctl.returned v.err), x.2)
    else if v.rcode ≠ 220 then (Exit.ret (Ctl.returned (some Error.ErrNotReady)), x.2)
    else (Exit.ret Ctl.next, x.2)
  | Exit.panic => (Exit.panic, x.2)
  | Exit.diverge => (Exit.diverge, x.2)

/-- The introduction with `EHLO` and, when that is not accepted, `HELO`
(lines 134-151). The argument is `strings.Split(m.From.Email, "@", 2)[1]`. -/
def negotiate (env : Env) (m : Message) (rw : readwrite) : Exit Ctl × readwrite :=
  match (Split m.From.Email '@' 2)[1]? with
  | none => (Exit.panic, rw)
  | some d =>
    let x := sendrecv env rw (fmtEHLO d)
    match x.1 with
    | Exit.ret v =>
      if v.err ≠ none then (Exit.ret (Ctl.returned v.err), x.2)
      else if v.rcode ≠ 250 then
        exchange env x.2 (fmtHELO d) 250 Error.ErrHeloNotAccepted
      else (Exit.ret Ctl.next, x.2)
    | Exit.panic => (Exit.panic, x.2)
    | Exit.diverge => (Exit.diverge, x.2)

/-- Everything `Send` does on the open connection up to the end of the
transaction loop. -/
def session (env : Env) (m : Message) (rw : readwrite) : Exit Ctl × readwrite :=
  andThen (greet rw) fun rw =>
  andThen (negotiate env m rw) fun rw =>
  txLoop env m (1 + m.BCC.length) 0 rw

/-- The state before any call on the network. -/
def idle : readwrite := { r := [], w := [], nsent := 0, log := [] }

/-- The connection as `net.Dial` hands it over: the greeting is on its way in,
nothing has been written. -/
def opened (env : Env) (host : SMTP) : readwrite :=
  { r := env.greeting, w := [], nsent := 0, log := [Event.dial host.Host host.Port] }

/-- The part of `Send` after the validation (lines 107-252): it dials, runs the
session and, when the transaction loop has run to its end, closes the
connection. -/
def connect (env : Env) (m : Message) (host : SMTP) : Exit (Int × Option Error) × readwrite :=
  -- conn, err := net.Dial("tcp", "", host:port); if err != nil { return }
  match env.Dial with
  | some e => (Exit.ret (0, some e), { idle with log := [Event.dial host.Host host.Port] })
  | none =>
    let x := session env m (opened env host)
    match x.1 with
    | Exit.ret (Ctl.returned err) => (Exit.ret (0, err), x.2)
    | Exit.ret Ctl.next =>
      -- err = conn.Close(); return
      (Exit.ret (0, env.Close), { x.2 with log := x.2.log ++ [Event.close] })
    | Exit.panic => (Exit.panic, x.2)
    | Exit.diverge => (Exit.diverge, x.2)

/-- The method `Message.Send`: its results `(n, err)` and the state of the
connection when it stops. `n` is never assigned. -/
def Send (env : Env) (m : Message) (host : SMTP) : Exit (Int × Option Error) × readwrite :=
  if (Split m.From.Email '@' 0).length ≠ 2 then
    (Exit.ret (0, some Error.ErrInvalidFromValue), idle)
  else if m.To.length = 0 then
    (Exit.ret (0, some Error.ErrNoRecipients), idle)
  else if m.Body.length = 0 then
    (Exit.ret (0, some Error.ErrBodyUndefined), idle)
  else if host.Host.length = 0 then
    (Exit.ret (0, some Error.ErrHostUndefined), idle)
  else if host.Port = 0 then
    (Exit.ret (0, some Error.ErrPortUndefined), idle)
  else connect env m host

/-- The commands written, in order: the arguments of the `WriteString` calls. -/
def writes : List Event → List Str
  | [] => []
  | Event.write m :: es => m :: writes es
  | _ :: es => writes es

/-! ## Replies as the server sends them -/

/-- The lines of a reply put end to end. -/
def cat : List Str → Str
  | [] => []
  | l :: ls => l ++ cat ls

/-- A line as the server sends it: bytes without a newline, then a newline. -/
def IsLine (l : Str) : Prop := l = l.dropLast ++ ['\n'] ∧ '\n' ∉ l.dropLast

instance : DecidablePred IsLine := fun l =>
  inferInstanceAs (Decidable (l = l.dropLast ++ ['\n'] ∧ '\n' ∉ l.dropLast))

/-- A continuation line of a reply: at least 4 bytes, the 4th being the marker. -/
def IsCont (l : Str) : Prop := IsLine l ∧ 4 ≤ l.length ∧ l[3]? = some '-'

instance : DecidablePred IsCont := fun l =>
  inferInstanceAs (Decidable (IsLine l ∧ 4 ≤ l.length ∧ l[3]? = some '-'))

/-- The final line of a reply: at least 4 bytes, the 4th not being the marker. -/
def IsFinal (l : Str) : Prop := IsLine l ∧ 4 ≤ l.length ∧ l[3]? ≠ some '-'

instance : DecidablePred IsFinal := fun l =>
  inferInstanceAs (Decidable (IsLine l ∧ 4 ≤ l.length ∧ l[3]? ≠ some '-'))

/-- The five conditions under which `Send` goes on to dial. -/
def Valid (m : Message) (host : SMTP) : Prop :=
  m.From.Email.count '@' = 1 ∧ m.To ≠ [] ∧ m.Body ≠ [] ∧ host.Host ≠ [] ∧ host.Port ≠ 0

instance (m : Message) (host : SMTP) : Decidable (Valid m host) :=
  inferInstanceAs (Decidable (m.From.Email.count '@' = 1 ∧ m.To ≠ [] ∧ m.Body ≠ [] ∧
    host.Host ≠ [] ∧ host.Port ≠ 0))

/-- Whether a call on the connection is the dialling of it. -/
def Event.isDial : Event → Bool
  | Event.dial _ _ => true
  | _ => false

/-- The log of `b` is the log of `a` followed by further calls, and every command
written by those satisfies `P`. -/
def Grows (P : Str → Prop) (a b : readwrite) : Prop :=
  ∃ es, b.log = a.log ++ es ∧ ∀ c ∈ writes es, P c

/-- The commands of a mail transaction of `m`. -/
def TxCmd (m : Message) (c : Str) : Prop :=
  c = mailCmd m ∨ (∃ a ∈ m.To, c = rcptCmd a) ∨ c = str "DATA\r\n" ∨ c = str ".\r\n" ∨
    c = str "QUIT\r\n"

/-- The domain portion of the From address, as `Send` takes it:
`strings.Split(m.From.Email, "@", 2)[1]`. -/
def domain (m : Message) : Str := ((Split m.From.Email '@' 2)[1]?).getD []

/-- The commands of a session for `m`. -/
def SessCmd (m : Message) (c : Str) : Prop :=
  c = fmtEHLO (domain m) ∨ c = fmtHELO (domain m) ∨ TxCmd m c

/-- The connection once the command `m` has been sent and its reply, the lines
`ls`, has been read in full. -/
def after (rw : readwrite) (m : Str) (ls : List Str) : readwrite :=
  { r := [], w := [], nsent := rw.nsent + 1,
    log := rw.log ++ [Event.write m, Event.flush] ++ ls.map Event.read }

/-- The connection once the greeting, the lines `ls`, has been read in full. -/
def greeted (host : SMTP) (ls : List Str) : readwrite :=
  { r := [], w := [], nsent := 0, log := Event.dial host.Host host.Port :: ls.map Event.read }

/-- Whether a command is a `HELO`. -/
def isHELO (c : Str) : Bool := c.take 5 == str "HELO "

/-- A server that answers every command with a reply that parses, with code 250
to `EHLO`, `MAIL FROM` and `RCPT TO`, 354 to `DATA` and 221 to `QUIT`. -/
def Accepts (env : Env) : Prop :=
  ∀ (k : Nat) (c : Str), ∃ cs f, (∀ l ∈ cs, IsCont l) ∧ IsFinal f ∧
    env.reply k c = cat cs ++ f ∧ (Atoi (f.take 3)).2 = none ∧
    (c = str "DATA\r\n" → (Atoi (f.take 3)).1 = 354) ∧
    (c = str "QUIT\r\n" → (Atoi (f.take 3)).1 = 221) ∧
    (c.take 5 = str "EHLO " ∨ c.take 10 = str "MAIL FROM:" ∨ c.take 8 = str "RCPT TO:" →
      (Atoi (f.take 3)).1 = 250)

/-- Nothing is waiting to be read and nothing is waiting to be flushed. -/
def Quiet (rw : readwrite) : Prop := rw.r = [] ∧ rw.w = []

/-- The commands of `n` transactions that are not the combined one. -/
def bccWrites (m : Message) : Nat → List Str
  | 0 => []
  | n + 1 => mailCmd m :: str "QUIT\r\n" :: bccWrites m n

/-- The commands of the branch `i >= len(m.BCC)` when every one is accepted: the
second recipient loop formats the first `len(m.CC)` entries of `m.To`. -/
def combinedWrites (m : Message) : List Str :=
  m.To.map rcptCmd ++ (m.To.take m.CC.length).map rcptCmd ++ [str "DATA\r\n", str ".\r\n"]

/-! ## A monitor for the log -/

/-- The loop of `dorecv` is either at its first iteration with an empty store, or
at a later one with both pointers on node 0, whose `next` is nil. -/
def LoopInv (i : Nat) (rtext curr : Option Nat) (st : List response) : Prop :=
  (i = 0 ∧ st = []) ∨
  (i ≠ 0 ∧ rtext = some 0 ∧ curr = some 0 ∧ ∃ t tail, st = ⟨t, none⟩ :: tail)

/-- Where a run of `Send` stands, read off its log: nothing done yet, connection
dialled, inside the reply to command `c` (`none`: the greeting), reply to `c`
complete with final line `l`, command written, command flushed, connection closed. -/
inductive Phase where
  | start
  | opened
  | reading (c : Option Str)
  | replied (c : Option Str) (l : Str)
  | written (c : Str)
  | flushed (c : Str)
  | closed
deriving DecidableEq, Repr

/-- The calls that keep request and reply in lock-step: a command is written only
once the reply before it is complete, it is flushed at once, and then lines are
read up to the first final line. -/
def Phase.step : Phase → Event → Option Phase
  | Phase.start, Event.dial _ _ => some Phase.opened
  | Phase.opened, Event.read l =>
    some (if IsFinal l then Phase.replied none l else Phase.reading none)
  | Phase.reading c, Event.read l =>
    some (if IsFinal l then Phase.replied c l else Phase.reading c)
  | Phase.flushed c, Event.read l =>
    some (if IsFinal l then Phase.replied (some c) l else Phase.reading (some c))
  | Phase.replied _ _, Event.write c => some (Phase.written c)
  | Phase.replied _ _, Event.close => some Phase.closed
  | Phase.written c, Event.flush => some (Phase.flushed c)
  | _, _ => none

/-- The phase reached from `p` by a sequence of calls, if they keep lock-step. -/
def Phase.run : Phase → List Event → Option Phase
  | p, [] => some p
  | p, e :: es =>
    match p.step e with
    | none => none
    | some q => q.run es

/-- A command has been written and its reply has not been read yet. -/
def Phase.pending : Phase → Bool
  | Phase.written _ => true
  | Phase.flushed _ => true
  | _ => false

/-- The error that the reply code `code` to the command `c` stands for: `MAIL FROM`
and `RCPT TO` want 250, `DATA` wants 354, `QUIT` wants 221. -/
def verdict (c : Str) (code : Int) : Option Error :=
  if c.take 10 = str "MAIL FROM:" then
    if code ≠ 250 then some Error.ErrInvalidFromValue else none
  else if c.take 8 = str "RCPT TO:" then
    if code ≠ 250 then some Error.ErrInvalidToValue else none
  else if c = str "DATA\r\n" then
    if code ≠ 354 then some Error.ErrDataNotAccepted else none
  else if c = str "QUIT\r\n" then
    if code ≠ 221 then some Error.ErrQuitNotAccepted else none
  else none

/-- The error of a phase in which a reply that parses rejects its command. -/
def Phase.rejection : Phase → Option Error
  | Phase.replied (some c) l =>
    if (Atoi (l.take 3)).2 = none then verdict c (Atoi (l.take 3)).1 else none
  | _ => none

/-- The command that has to come next: the terminator line once `DATA` is answered
with 354, and `QUIT` once the terminator line is answered with a reply that parses. -/
def Phase.must : Phase → Option Str
  | Phase.replied (some c) l =>
    if (Atoi (l.take 3)).2 = none then
      if c = str "DATA\r\n" ∧ (Atoi (l.take 3)).1 = 354 then some (str ".\r\n")
      else if c = str ".\r\n" then some (str "QUIT\r\n")
      else none
    else none
  | _ => none

/-- The lock-step calls under two further rules: nothing follows a rejection, and a
command that has to come next does come next. -/
def Phase.stepM (p : Phase) (e : Event) : Option Phase :=
  match p.rejection with
  | some _ => none
  | none =>
    match p.must with
    | some c => if e = Event.write c then p.step e else none
    | none => p.step e

/-- The phase reached from `p` under the rules of `stepM`. -/
def Phase.runM : Phase → List Event → Option Phase
  | p, [] => some p
  | p, e :: es =>
    match p.stepM e with
    | none => none
    | some q => q.runM es

/-- The next call has to be a read of the reply to the command `co` (`none`: of the
greeting). -/
def Awaits (co : Option Str) (p : Phase) : Prop :=
  (p = Phase.opened ∧ co = none) ∨ (∃ c, p = Phase.flushed c ∧ co = some c) ∨
    p = Phase.reading co

/-- A reply is complete, it rejects nothing, and the command `c` may be written. -/
def CanWrite (c : Str) (p : Phase) : Prop :=
  (∃ c0 l, p = Phase.replied c0 l) ∧ p.rejection = none ∧ (p.must = none ∨ p.must = some c)

/-- A reply is complete, it rejects nothing, and no command has to come next. -/
def Free (p : Phase) : Prop :=
  (∃ c0 l, p = Phase.replied c0 l) ∧ p.rejection = none ∧ p.must = none

/-- A reply is complete, it rejects nothing, and the command `c` has to come next. -/
def Owes (c : Str) (p : Phase) : Prop :=
  (∃ c0 l, p = Phase.replied c0 l) ∧ p.rejection = none ∧ p.must = some c

/-- A step of `Send` that starts in phase `p` and ends as `out`: the calls it adds
to the log obey `stepM`; when it runs on, the phase reached satisfies `Q`; when it
stops, no reply is outstanding, no command has to come next, and a rejection is
what it returns. -/
def Tracks (Q : Phase → Prop) (p : Phase) (rw : readwrite) (out : Exit Ctl × readwrite) :
    Prop :=
  ∃ es p', out.2.log = rw.log ++ es ∧ p.runM es = some p' ∧
    (out.1 = Exit.ret Ctl.next → Q p') ∧
    (out.1 ≠ Exit.ret Ctl.next → p'.pending = false ∧ p'.must = none ∧
      ∀ e, p'.rejection = some e → out.1 = Exit.ret (Ctl.returned (some e)))

/-- The message `m` with its BCC entries replaced by `bcc`. -/
def Message.withBCC (m : Message) (bcc : List Address) : Message :=
  { From := m.From, To := m.To, CC := m.CC, BCC := bcc, Body := m.Body,
    Attachments := m.Attachments }

/-! ## Concrete inputs -/

/-- A reader holding a reply of two lines. -/
def twoLines : readwrite :=
  { r := str "250-alpha\r\n250 beta\r\n", w := [], nsent := 0, log := [] }

/-- A reader holding the reply `250-first\r\n250-second\r\n250 third\r\n`. -/
def threeLines : readwrite :=
  { r := str "250-first\r\n250-second\r\n250 third\r\n", w := [], nsent := 0, log := [] }

/-- A reader holding a reply of two lines followed by the start of another reply. -/
def twoReplies : readwrite :=
  { r := str "250-alpha\r\n250 beta\r\n221 bye\r\n", w := [], nsent := 0, log := [] }

/-- A server that accepts every command: 354 for `DATA`, 221 for `QUIT`, 250 for
the rest, after the greeting 220. -/
def okEnv : Env where
  Dial := none
  greeting := str "220 ready\r\n"
  reply := fun _ c =>
    if c.take 4 = str "DATA" then str "354 go ahead\r\n"
    else if c.take 4 = str "QUIT" then str "221 bye\r\n"
    else str "250 ok\r\n"
  ioerr := fun _ => none
  Close := none

/-- No `WriteString` and no `Flush` fails. -/
def Healthy (env : Env) : Prop := ∀ k, env.ioerr k = none

/-- A server whose greeting is `421 busy`. -/
def busyEnv : Env where
  Dial := none
  greeting := str "421 busy\r\n"
  reply := fun _ _ => str "250 ok\r\n"
  ioerr := fun _ => none
  Close := none

/-- A server that rejects `EHLO` with 500 and accepts everything else. -/
def heloEnv : Env where
  Dial := none
  greeting := str "220 ready\r\n"
  reply := fun _ c =>
    if c.take 4 = str "EHLO" then str "500 unknown\r\n"
    else if c.take 4 = str "DATA" then str "354 go ahead\r\n"
    else if c.take 4 = str "QUIT" then str "221 bye\r\n"
    else str "250 ok\r\n"
  ioerr := fun _ => none
  Close := none

/-- A server that rejects every `RCPT TO` with 550 and accepts everything else. -/
def rcptRejectEnv : Env where
  Dial := none
  greeting := str "220 ready\r\n"
  reply := fun _ c =>
    if c.take 4 = str "RCPT" then str "550 no such user\r\n"
    else if c.take 4 = str "DATA" then str "354 go ahead\r\n"
    else if c.take 4 = str "QUIT" then str "221 bye\r\n"
    else str "250 ok\r\n"
  ioerr := fun _ => none
  Close := none

/-- A server that answers the terminator line with 554 and accepts everything else. -/
def dotRejectEnv : Env where
  Dial := none
  greeting := str "220 ready\r\n"
  reply := fun _ c =>
    if c.take 1 = str "." then str "554 transaction failed\r\n"
    else if c.take 4 = str "DATA" then str "354 go ahead\r\n"
    else if c.take 4 = str "QUIT" then str "221 bye\r\n"
    else str "250 ok\r\n"
  ioerr := fun _ => none
  Close := none

/-- A connection on which every `WriteString` and every `Flush` fails. -/
def brokenEnv : Env where
  Dial := none
  greeting := str "220 ready\r\n"
  reply := fun _ _ => str "250 ok\r\n"
  ioerr := fun _ => some (Error.transport 1)
  Close := none

/-- A reader holding a line of 3 bytes. -/
def shortLine : readwrite := { r := str "ok\n", w := [], nsent := 0, log := [] }

/-- The server target of the package's test. -/
def tpg : SMTP := { Host := str "mail.tpg.com.au", Port := 25 }

/-- The recipient of the package's test. -/
def bla : Address := { Name := str "Bla", Email := str "zeffrin@gmail.com" }

/-- A second address. -/
def carol : Address := { Name := [], Email := str "carol@example.org" }

/-- A third address. -/
def dave : Address := { Name := [], Email := str "dave@example.org" }

/-- The message of the package's test. -/
def testMsg : Message :=
  { From := { Name := [], Email := str "trangtle@tpg.com.au" }, To := [bla], CC := [], BCC := [],
    Body := str "Testing", Attachments := [] }

/-- The test message with one CC recipient. -/
def ccMsg : Message :=
  { From := { Name := [], Email := str "trangtle@tpg.com.au" }, To := [bla], CC := [carol],
    BCC := [], Body := str "Testing", Attachments := [] }

/-- The test message with two CC recipients: more than it has To recipients. -/
def cc2Msg : Message :=
  { From := { Name := [], Email := str "trangtle@tpg.com.au" }, To := [bla], CC := [carol, dave],
    BCC := [], Body := str "Testing", Attachments := [] }

/-- The test message with one BCC recipient. -/
def bccMsg : Message :=
  { From := { Name := [], Email := str "trangtle@tpg.com.au" }, To := [bla], CC := [],
    BCC := [carol], Body := str "Testing", Attachments := [] }

/-- A message with neither a sender address nor a recipient. -/
def emptyMsg : Message :=
  { From := { Name := [], Email := [] }, To := [], CC := [], BCC := [], Body := [],
    Attachments := [] }

/-- A message with a sender address and no recipient. -/
def noRcptMsg : Message :=
  { From := { Name := [], Email := str "trangtle@tpg.com.au" }, To := [], CC := [], BCC := [],
    Body := [], Attachments := [] }

/-! ## Reading a reply -/

/-- Reading up to the newline of a line returns the line and leaves what follows it. -/
theorem readUntil_line (b rest : Str) (hb : '\n' ∉ b) :
    readUntil '\n' (b ++ '\n' :: rest) = (b ++ ['\n'], rest, none) := by
  induction b with
  | nil => simp [readUntil]
  | cons c cs ih =>
    have hc : c ≠ '\n' := fun h => hb (by simp [h])
    have hcs : '\n' ∉ cs := fun h => hb (by simp [h])
    simp [readUntil, hc, ih hcs]

/-- `ReadString` on input that starts with a line returns that line without error. -/
theorem ReadString_line (rw : readwrite) (l rest : Str) (hl : IsLine l) (hr : rw.r = l ++ rest) :
    rw.ReadString '\n' = (l, none, { rw with r := rest, log := rw.log ++ [Event.read l] }) := by
  obtain ⟨hl1, hb⟩ := hl
  have := readUntil_line l.dropLast rest hb
  rw [hl1] at hr
  simp only [List.append_assoc, List.singleton_append] at hr
  simp only [readwrite.ReadString, hr, this]
  rw [← hl1]


/-- The first iteration of the loop of `dorecv` on a line of at least 4 bytes. -/
theorem dorecvLoop_first (fuel : Nat) (rtext curr : Option Nat) (rw : readwrite) (l rest : Str)
    (hl : IsLine l) (h4 : 4 ≤ l.length) (hr : rw.r = l ++ rest) :
    dorecvLoop (fuel + 1) 0 rtext curr [] rw =
      if l[3]? ≠ some '-' then
        (Exit.ret { rcode := (Atoi (l.take 3)).1, rtext := some 0, err := (Atoi (l.take 3)).2,
                    store := [⟨l.drop 4, none⟩] },
         { rw with r := rest, log := rw.log ++ [Event.read l] })
      else dorecvLoop fuel 1 (some 0) (some 0) [⟨l.drop 4, none⟩]
         { rw with r := rest, log := rw.log ++ [Event.read l] } := by
  have h3 : 3 < l.length := by omega
  have h4' : ¬ l.length < 4 := by omega
  rw [dorecvLoop]
  simp only [ReadString_line rw l rest hl hr]
  simp [h3, h4', setText, List.modify, blank]

/-- A later iteration of the loop of `dorecv`: the node `curr` points to is
overwritten, and a blank node is left behind in the store. -/
theorem dorecvLoop_later (fuel i : Nat) (t : Str) (tail : List response) (rw : readwrite)
    (l rest : Str) (hi : i ≠ 0)
    (hl : IsLine l) (h4 : 4 ≤ l.length) (hr : rw.r = l ++ rest) :
    dorecvLoop (fuel + 1) i (some 0) (some 0) (⟨t, none⟩ :: tail) rw =
      if l[3]? ≠ some '-' then
        (Exit.ret { rcode := (Atoi (l.take 3)).1, rtext := some 0, err := (Atoi (l.take 3)).2,
                    store := ⟨l.drop 4, none⟩ :: (tail ++ [blank]) },
         { rw with r := rest, log := rw.log ++ [Event.read l] })
      else dorecvLoop fuel (i + 1) (some 0) (some 0) (⟨l.drop 4, none⟩ :: (tail ++ [blank]))
         { rw with r := rest, log := rw.log ++ [Event.read l] } := by
  have h3 : 3 < l.length := by omega
  have h4' : ¬ l.length < 4 := by omega
  rw [dorecvLoop]
  simp only [ReadString_line rw l rest hl hr]
  simp [h3, h4', hi, setText, setNext, List.modify, blank]


/-- The loop of `dorecv` after its first iteration, on the rest of a reply. -/
theorem dorecvLoop_tail (fin rest : Str) (hf : IsFinal fin) (conts : List Str) :
    ∀ (fuel i : Nat) (t : Str) (tail : List response) (rw : readwrite),
      i ≠ 0 → conts.length < fuel → (∀ l ∈ conts, IsCont l) →
      rw.r = cat conts ++ fin ++ rest →
      dorecvLoop fuel i (some 0) (some 0) (⟨t, none⟩ :: tail) rw =
        (Exit.ret { rcode := (Atoi (fin.take 3)).1, rtext := some 0,
                    err := (Atoi (fin.take 3)).2,
                    store := ⟨fin.drop 4, none⟩ ::
                      (tail ++ List.replicate (conts.length + 1) blank) },
         { rw with r := rest, log := rw.log ++ (conts ++ [fin]).map Event.read }) := by
  induction conts with
  | nil =>
    intro fuel i t tail rw hi hfu _ hr
    obtain ⟨fuel, rfl⟩ : ∃ k, fuel = k + 1 := ⟨fuel - 1, by simp at hfu; omega⟩
    simp only [cat, List.nil_append] at hr
    rw [dorecvLoop_later fuel i t tail rw fin rest hi hf.1 hf.2.1 hr]
    simp [hf.2.2]
  | cons c cs ih =>
    intro fuel i t tail rw hi hfu hc hr
    obtain ⟨fuel, rfl⟩ : ∃ k, fuel = k + 1 := ⟨fuel - 1, by simp at hfu; omega⟩
    have hcc : IsCont c := hc c (by simp)
    simp only [cat, List.append_assoc] at hr
    rw [dorecvLoop_later fuel i t tail rw c _ hi hcc.1 hcc.2.1 hr]
    simp only [hcc.2.2, ne_eq, not_true_eq_false, if_false]
    rw [ih fuel (i + 1) (c.drop 4) (tail ++ [blank]) _ (by omega) (by simp at hfu; omega)
      (fun l hl => hc l (by simp [hl])) (by simp)]
    simp [List.replicate_succ]


/-- Continuation lines are not empty, so a reply has at least as many bytes as lines. -/
theorem length_le_cat (cs : List Str) (hc : ∀ l ∈ cs, IsCont l) : cs.length ≤ (cat cs).length := by
  induction cs with
  | nil => simp
  | cons c cs ih =>
    have h1 := (hc c (by simp)).2.1
    have h2 := ih (fun l hl => hc l (by simp [hl]))
    simp only [cat, List.length_cons, List.length_append]
    omega

/-- The result of `dorecv` on a reply followed by anything: the code and error of
`Atoi` on the final line, one node holding the final text, the rest left unread. -/
theorem dorecv_reply (rw : readwrite) (conts : List Str) (fin rest : Str)
    (hc : ∀ l ∈ conts, IsCont l) (hf : IsFinal fin) (hr : rw.r = cat conts ++ fin ++ rest) :
    dorecv rw =
      (Exit.ret { rcode := (Atoi (fin.take 3)).1, rtext := some 0,
                  err := (Atoi (fin.take 3)).2,
                  store := ⟨fin.drop 4, none⟩ :: List.replicate conts.length blank },
       { rw with r := rest, log := rw.log ++ (conts ++ [fin]).map Event.read }) := by
  unfold dorecv
  cases conts with
  | nil =>
    simp only [cat, List.nil_append] at hr
    rw [dorecvLoop_first _ none none rw fin rest hf.1 hf.2.1 hr]
    simp [hf.2.2]
  | cons c cs =>
    have hcc : IsCont c := hc c (by simp)
    have hcs : ∀ l ∈ cs, IsCont l := fun l hl => hc l (by simp [hl])
    have hlen := length_le_cat cs hcs
    have hr' : rw.r = c ++ (cat cs ++ fin ++ rest) := by simp [hr, cat]
    rw [dorecvLoop_first _ none none rw c _ hcc.1 hcc.2.1 hr']
    simp only [hcc.2.2, ne_eq, not_true_eq_false, if_false]
    have hfu : cs.length < rw.r.length := by
      have := hcc.2.1
      simp only [hr', List.length_append]
      omega
    rw [dorecvLoop_tail fin rest hf cs rw.r.length 1 (c.drop 4) [] _ (by omega) hfu hcs (by simp)]
    simp [List.replicate_succ]

/-- C3 (code_bug): on a reply of two lines `dorecv` returns without error a list of
one element only, the text of the second line: the first line is dropped. -/
theorem dorecv_two_lines_one_node :
    ∃ v, (dorecv twoLines).1 = Exit.ret v ∧ v.err = none ∧
      listTexts v.store v.rtext = [str "beta\r\n"] ∧
      listTexts v.store v.rtext ≠ [str "alpha\r\n", str "beta\r\n"] :=
  ⟨{ rcode := 250, rtext := some 0, err := none,
     store := [⟨str "beta\r\n", none⟩, blank] }, by decide, rfl, by decide, by decide⟩

/-- C4: when the unread input is a run of continuation lines (at least 4 bytes, the
4th being `-`), then a line of at least 4 bytes whose 4th is not `-`, then anything,
`dorecv` returns; it has read exactly those lines, the final one included and
nothing after it, and its code and error are those of `Atoi` on the first three
bytes of the final line. -/
theorem dorecv_stops_at_final_line (rw : readwrite) (conts : List Str) (fin rest : Str)
    (hc : ∀ l ∈ conts, IsCont l) (hf : IsFinal fin) (hr : rw.r = cat conts ++ fin ++ rest) :
    ∃ v, (dorecv rw).1 = Exit.ret v ∧
      v.rcode = (Atoi (fin.take 3)).1 ∧ v.err = (Atoi (fin.take 3)).2 ∧
      (dorecv rw).2.r = rest ∧
      (dorecv rw).2.log = rw.log ++ (conts ++ [fin]).map Event.read := by
  rw [dorecv_reply rw conts fin rest hc hf hr]
  exact ⟨_, rfl, rfl, rfl, rfl, rfl⟩

/-- C4 at a reply of two lines followed by the first line of another reply. -/
theorem dorecv_stops_at_final_line_witness :
    (∀ l ∈ [str "250-alpha\r\n"], IsCont l) ∧ IsFinal (str "250 beta\r\n") ∧
    ∃ v, (dorecv twoReplies).1 = Exit.ret v ∧
      v.rcode = (Atoi ((str "250 beta\r\n").take 3)).1 ∧
      v.err = (Atoi ((str "250 beta\r\n").take 3)).2 ∧
      (dorecv twoReplies).2.r = str "221 bye\r\n" ∧
      (dorecv twoReplies).2.log =
        twoReplies.log ++ ([str "250-alpha\r\n"] ++ [str "250 beta\r\n"]).map Event.read :=
  ⟨by decide, by decide,
   dorecv_stops_at_final_line twoReplies [str "250-alpha\r\n"] (str "250 beta\r\n")
     (str "221 bye\r\n") (by decide) (by decide) (by decide)⟩

/-- C5 (as stated, refuted): on `250-first\r\n250-second\r\n250 third\r\n` the list
that `dorecv` returns is not `["first", "second", "third"]`. -/
theorem dorecv_three_lines_not_stripped :
    ¬ ∃ v, (dorecv threeLines).1 = Exit.ret v ∧ v.rcode = 250 ∧ v.err = none ∧
        listTexts v.store v.rtext = [str "first", str "second", str "third"] := by
  rintro ⟨v, hv, -, -, ht⟩
  have h : (dorecv threeLines).1 =
      Exit.ret ⟨250, some 0, none, [⟨str "third\r\n", none⟩, blank, blank]⟩ := by decide
  rw [h] at hv
  cases hv
  revert ht
  decide

/-- C5 (amended): on `250-first\r\n250-second\r\n250 third\r\n` the function
`dorecv` reads the three lines and nothing else, returns code 250 and no error,
and the last text of the list it returns is `third\r\n`, terminator included. -/
theorem dorecv_three_lines :
    ∃ v, (dorecv threeLines).1 = Exit.ret v ∧ v.rcode = 250 ∧ v.err = none ∧
      (listTexts v.store v.rtext).getLast? = some (str "third\r\n") ∧
      (dorecv threeLines).2.r = [] ∧
      (dorecv threeLines).2.log =
        [Event.read (str "250-first\r\n"), Event.read (str "250-second\r\n"),
         Event.read (str "250 third\r\n")] :=
  ⟨{ rcode := 250, rtext := some 0, err := none,
     store := [⟨str "third\r\n", none⟩, blank, blank] },
   by decide, rfl, rfl, by decide, by decide, by decide⟩

/-! ## Validation -/

/-- Splitting without limit yields one piece more than there are separators. -/
theorem length_splitAll (sep : Char) (s : Str) : (splitAll sep s).length = s.count sep + 1 := by
  induction s with
  | nil => simp [splitAll]
  | cons c cs ih =>
    by_cases h : c = sep
    · subst h
      simp [splitAll, ih]
    · have h' : ¬ (c == sep) = true := by simpa using h
      simp only [splitAll, h, if_false, List.count_cons, h']
      cases hs : splitAll sep cs with
      | nil => rw [hs] at ih; simp at ih
      | cons p ps => rw [hs] at ih; simpa using ih

/-- The first check of `Send` fails exactly when the address has not exactly one `@`. -/
theorem split_check (m : Message) :
    (Split m.From.Email '@' 0).length ≠ 2 ↔ m.From.Email.count '@' ≠ 1 := by
  simp [Split, length_splitAll]

/-- A valid message passes the five checks of `Send`. -/
theorem Send_valid (env : Env) (m : Message) (host : SMTP) (hv : Valid m host) :
    Send env m host = connect env m host := by
  obtain ⟨h1, h2, h3, h4, h5⟩ := hv
  have e1 : ¬ (Split m.From.Email '@' 0).length ≠ 2 := by rw [split_check]; simp [h1]
  have e2 : ¬ m.To.length = 0 := by simpa using h2
  have e3 : ¬ m.Body.length = 0 := by simpa using h3
  have e4 : ¬ host.Host.length = 0 := by simpa using h4
  simp only [Send, e1, e2, e3, e4, h5, if_false]

/-- C6: when `from.email` does not contain exactly one `@` (none, or more than one),
`Send` returns `ErrInvalidFromValue` whatever the server target is, and no call on
the network has been made: no dial, no read, no write. -/
theorem send_invalid_from (env : Env) (m : Message) (host : SMTP)
    (h : m.From.Email.count '@' ≠ 1) :
    (Send env m host).1 = Exit.ret (0, some Error.ErrInvalidFromValue) ∧
      (Send env m host).2.log = [] := by
  have e1 : (Split m.From.Email '@' 0).length ≠ 2 := (split_check m).2 h
  simp [Send, e1, idle]

/-- C7 (amended): when `from.email` contains exactly one `@` and the To list is empty,
`Send` returns `ErrNoRecipients` whatever the other fields and the server target
are, and no call on the network has been made. -/
theorem send_no_recipients (env : Env) (m : Message) (host : SMTP)
    (h1 : m.From.Email.count '@' = 1) (h2 : m.To = []) :
    (Send env m host).1 = Exit.ret (0, some Error.ErrNoRecipients) ∧
      (Send env m host).2.log = [] := by
  have e1 : ¬ (Split m.From.Email '@' 0).length ≠ 2 := by rw [split_check]; simp [h1]
  simp [Send, e1, h2, idle]

/-! ## Growth of the log -/

/-- The commands of two logs put end to end. -/
theorem writes_append (xs ys : List Event) : writes (xs ++ ys) = writes xs ++ writes ys := by
  induction xs with
  | nil => rfl
  | cons e es ih => cases e <;> simp [writes, ih]

/-- Reads write no command. -/
theorem writes_reads (ls : List Str) : writes (ls.map Event.read) = [] := by
  induction ls with
  | nil => rfl
  | cons l ls ih => simpa [writes] using ih

/-- A log grows from itself. -/
theorem Grows.refl (P : Str → Prop) (a : readwrite) : Grows P a a :=
  ⟨[], by simp, by simp [writes]⟩

/-- Growth of the log composes. -/
theorem Grows.trans {P : Str → Prop} {a b c : readwrite} (h1 : Grows P a b) (h2 : Grows P b c) :
    Grows P a c := by
  obtain ⟨e1, h1, p1⟩ := h1
  obtain ⟨e2, h2, p2⟩ := h2
  refine ⟨e1 ++ e2, by simp [h2, h1], ?_⟩
  intro c hc
  rw [writes_append, List.mem_append] at hc
  exact hc.elim (p1 c) (p2 c)

/-- Growth of the log under a weaker condition on the commands. -/
theorem Grows.mono {P Q : Str → Prop} {a b : readwrite} (h : Grows P a b) (hPQ : ∀ c, P c → Q c) :
    Grows Q a b := by
  obtain ⟨es, h1, h2⟩ := h
  exact ⟨es, h1, fun c hc => hPQ c (h2 c hc)⟩

/-- A `ReadString` call adds one read to the log. -/
theorem Grows_read (P : Str → Prop) (rw : readwrite) :
    Grows P rw (rw.ReadString '\n').2.2 :=
  ⟨[Event.read (readUntil '\n' rw.r).1], by simp [readwrite.ReadString], by simp [writes]⟩

/-- The loop of `dorecv` adds reads only. -/
theorem Grows_dorecvLoop (P : Str → Prop) (fuel : Nat) :
    ∀ (i : Nat) (rtext curr : Option Nat) (st : List response) (rw : readwrite),
      Grows P rw (dorecvLoop fuel i rtext curr st rw).2 := by
  induction fuel with
  | zero => intro i rtext curr st rw; exact Grows.refl P rw
  | succ fuel ih =>
    intro i rtext curr st rw
    have hr := Grows_read P rw
    rw [dorecvLoop]
    simp only []
    repeat' split
    all_goals first
      | exact hr
      | exact hr.trans (ih _ _ _ _ _)


/-- The function `dosend` never returns an error. -/
theorem dosend_fst (env : Env) (rw : readwrite) (m : Str) : (dosend env rw m).1 = none := by
  simp [dosend]

/-- The function `dosend` adds one write and one flush to the log. -/
theorem dosend_log (env : Env) (rw : readwrite) (m : Str) :
    (dosend env rw m).2.log = rw.log ++ [Event.write m, Event.flush] := by
  have hw : ∀ a : readwrite, (a.WriteString env m).2.log = a.log ++ [Event.write m] := by
    intro a; unfold readwrite.WriteString; split <;> rfl
  have hf : ∀ a : readwrite, (a.Flush env).2.log = a.log ++ [Event.flush] := by
    intro a; unfold readwrite.Flush; split <;> rfl
  simp [dosend, hw, hf]

/-- The function `sendrecv` always goes on to `dorecv`. -/
theorem sendrecv_eq (env : Env) (rw : readwrite) (m : Str) :
    sendrecv env rw m = dorecv (dosend env rw m).2 := by
  simp [sendrecv, dosend_fst]

/-- The function `dorecv` adds reads only. -/
theorem Grows_dorecv (P : Str → Prop) (rw : readwrite) : Grows P rw (dorecv rw).2 :=
  Grows_dorecvLoop P _ _ _ _ _ _

/-- The function `sendrecv` writes its command and nothing else. -/
theorem Grows_sendrecv {P : Str → Prop} (env : Env) (rw : readwrite) (m : Str) (hm : P m) :
    Grows P rw (sendrecv env rw m).2 := by
  rw [sendrecv_eq]
  refine Grows.trans ⟨[Event.write m, Event.flush], dosend_log env rw m, ?_⟩ (Grows_dorecv P _)
  intro c hc
  simp [writes] at hc
  exact hc ▸ hm

/-- An exchange leaves the connection as its `sendrecv` does. -/
theorem exchange_snd (env : Env) (rw : readwrite) (m : Str) (want : Int) (e : Error) :
    (exchange env rw m want e).2 = (sendrecv env rw m).2 := by
  simp only [exchange]
  repeat' split
  all_goals rfl

/-- The terminator step leaves the connection as its `sendrecv` does. -/
theorem dotStep_snd (env : Env) (rw : readwrite) :
    (dotStep env rw).2 = (sendrecv env rw (str ".\r\n")).2 := by
  simp only [dotStep, str]
  repeat' split
  all_goals rfl

/-- Growth of the log through a sequence of two steps. -/
theorem Grows_andThen {P : Str → Prop} {rw : readwrite} (x : Exit Ctl × readwrite)
    (f : readwrite → Exit Ctl × readwrite) (hx : Grows P rw x.2)
    (hf : ∀ a, Grows P a (f a).2) : Grows P rw (andThen x f).2 := by
  unfold andThen
  split
  · exact hx.trans (hf _)
  · exact hx

/-- A recipient loop writes recipient commands of `To` only. -/
theorem Grows_rcptLoop {P : Str → Prop} (env : Env) (To : List Address)
    (hP : ∀ a ∈ To, P (rcptCmd a)) (rem : Nat) :
    ∀ (k : Nat) (rw : readwrite), Grows P rw (rcptLoop env To rem k rw).2 := by
  induction rem with
  | zero => intro k rw; exact Grows.refl P rw
  | succ rem ih =>
    intro k rw
    rw [rcptLoop]
    split
    · exact Grows.refl P rw
    · rename_i a ha
      refine Grows_andThen _ _ ?_ (fun b => ih _ b)
      rw [exchange_snd]
      exact Grows_sendrecv env rw _ (hP a (List.getElem?_mem ha))


/-- The combined branch writes transaction commands only. -/
theorem Grows_combined (env : Env) (m : Message) (rw : readwrite) :
    Grows (TxCmd m) rw (combined env m rw).2 := by
  have hR : ∀ a ∈ m.To, TxCmd m (rcptCmd a) := fun a ha => Or.inr (Or.inl ⟨a, ha, rfl⟩)
  unfold combined
  refine Grows_andThen _ _ (Grows_rcptLoop env m.To hR _ _ _) (fun a => ?_)
  refine Grows_andThen _ _ (Grows_rcptLoop env m.To hR _ _ _) (fun a => ?_)
  refine Grows_andThen _ _ ?_ (fun a => ?_)
  · rw [exchange_snd]
    exact Grows_sendrecv env _ _ (Or.inr (Or.inr (Or.inl rfl)))
  · rw [dotStep_snd]
    exact Grows_sendrecv env _ _ (Or.inr (Or.inr (Or.inr (Or.inl rfl))))

/-- A transaction writes transaction commands only. -/
theorem Grows_transaction (env : Env) (m : Message) (i : Nat) (rw : readwrite) :
    Grows (TxCmd m) rw (transaction env m i rw).2 := by
  unfold transaction
  refine Grows_andThen _ _ ?_ (fun a => ?_)
  · rw [exchange_snd]
    exact Grows_sendrecv env _ _ (Or.inl rfl)
  refine Grows_andThen _ _ ?_ (fun a => ?_)
  · split
    · exact Grows_combined env m a
    · exact Grows.refl _ a
  · rw [exchange_snd]
    exact Grows_sendrecv env _ _ (Or.inr (Or.inr (Or.inr (Or.inr rfl))))

/-- The transaction loop writes transaction commands only. -/
theorem Grows_txLoop (env : Env) (m : Message) (rem : Nat) :
    ∀ (i : Nat) (rw : readwrite), Grows (TxCmd m) rw (txLoop env m rem i rw).2 := by
  induction rem with
  | zero => intro i rw; exact Grows.refl _ rw
  | succ rem ih =>
    intro i rw
    rw [txLoop]
    exact Grows_andThen _ _ (Grows_transaction env m i rw) (fun a => ih _ a)

/-- Reading the greeting adds reads only. -/
theorem Grows_greet (P : Str → Prop) (rw : readwrite) : Grows P rw (greet rw).2 := by
  have h : (greet rw).2 = (dorecv rw).2 := by
    simp only [greet]
    repeat' split
    all_goals rfl
  rw [h]
  exact Grows_dorecv P rw

/-- The introduction writes `EHLO` and `HELO` commands only. -/
theorem Grows_negotiate (env : Env) (m : Message) (rw : readwrite) :
    Grows (SessCmd m) rw (negotiate env m rw).2 := by
  unfold negotiate
  split
  · exact Grows.refl _ rw
  · rename_i d hd
    have hdom : domain m = d := by simp [domain, hd]
    have h1 : Grows (SessCmd m) rw (sendrecv env rw (fmtEHLO d)).2 :=
      Grows_sendrecv env rw _ (Or.inl (by rw [hdom]))
    simp only []
    split
    · split
      · exact h1
      · split
        · refine h1.trans ?_
          rw [exchange_snd]
          exact Grows_sendrecv env _ _ (Or.inr (Or.inl (by rw [hdom])))
        · exact h1
    · exact h1
    · exact h1

/-- The session writes session commands only and keeps what was logged before. -/
theorem Grows_session (env : Env) (m : Message) (rw : readwrite) :
    Grows (SessCmd m) rw (session env m rw).2 := by
  unfold session
  refine Grows_andThen _ _ (Grows_greet _ rw) (fun a => ?_)
  refine Grows_andThen _ _ (Grows_negotiate env m a) (fun a => ?_)
  exact (Grows_txLoop env m _ 0 a).mono (fun c hc => Or.inr (Or.inr hc))

/-- The log of a run that reaches `net.Dial` starts with the dial. -/
theorem connect_log (env : Env) (m : Message) (host : SMTP) :
    ∃ es, (connect env m host).2.log = Event.dial host.Host host.Port :: es := by
  unfold connect
  split
  · exact ⟨[], rfl⟩
  · obtain ⟨es, h, -⟩ := Grows_session env m (opened env host)
    simp only []
    split
    · exact ⟨es, by simpa [opened] using h⟩
    · refine ⟨es ++ [Event.close], ?_⟩
      show (session env m (opened env host)).2.log ++ [Event.close] = _
      rw [h]
      simp [opened]
    · exact ⟨es, by simpa [opened] using h⟩
    · exact ⟨es, by simpa [opened] using h⟩

/-- When a check of `Send` fails, no call on the network has been made. -/
theorem Send_invalid_log (env : Env) (m : Message) (host : SMTP) (h : ¬ Valid m host) :
    (Send env m host).2.log = [] := by
  unfold Send
  split
  · rfl
  split
  · rfl
  split
  · rfl
  split
  · rfl
  split
  · rfl
  · rename_i h1 h2 h3 h4 h5
    exfalso
    apply h
    refine ⟨?_, ?_, ?_, ?_, h5⟩
    · have := (split_check m).not.1 h1
      simpa using this
    · simpa using h2
    · simpa using h3
    · simpa using h4

/-- C8: the validation of `Send` reports the first failing check in the order
from (exactly one `@`), recipients (To not empty), body (not empty), host (not
empty), port (not zero), with `ErrInvalidFromValue`, `ErrNoRecipients`,
`ErrBodyUndefined`, `ErrHostUndefined`, `ErrPortUndefined`; these five errors are
pairwise distinct; and the connection is dialled if and only if all five checks
pass. -/
theorem send_validation_order (env : Env) (m : Message) (host : SMTP) :
    (m.From.Email.count '@' ≠ 1 →
      (Send env m host).1 = Exit.ret (0, some Error.ErrInvalidFromValue)) ∧
    (m.From.Email.count '@' = 1 → m.To = [] →
      (Send env m host).1 = Exit.ret (0, some Error.ErrNoRecipients)) ∧
    (m.From.Email.count '@' = 1 → m.To ≠ [] → m.Body = [] →
      (Send env m host).1 = Exit.ret (0, some Error.ErrBodyUndefined)) ∧
    (m.From.Email.count '@' = 1 → m.To ≠ [] → m.Body ≠ [] → host.Host = [] →
      (Send env m host).1 = Exit.ret (0, some Error.ErrHostUndefined)) ∧
    (m.From.Email.count '@' = 1 → m.To ≠ [] → m.Body ≠ [] → host.Host ≠ [] → host.Port = 0 →
      (Send env m host).1 = Exit.ret (0, some Error.ErrPortUndefined)) ∧
    [Error.ErrInvalidFromValue, Error.ErrNoRecipients, Error.ErrBodyUndefined,
      Error.ErrHostUndefined, Error.ErrPortUndefined].Nodup ∧
    ((∃ e ∈ (Send env m host).2.log, e.isDial = true) ↔ Valid m host) := by
  have e1 : m.From.Email.count '@' = 1 → ¬ (Split m.From.Email '@' 0).length ≠ 2 := by
    intro h; rw [split_check]; simp [h]
  refine ⟨?_, ?_, ?_, ?_, ?_, by decide, ?_⟩
  · intro h
    simp [Send, (split_check m).2 h]
  · intro h1 h2
    simp [Send, e1 h1, h2]
  · intro h1 h2 h3
    simp [Send, e1 h1, h2, h3]
  · intro h1 h2 h3 h4
    simp [Send, e1 h1, h2, h3, h4]
  · intro h1 h2 h3 h4 h5
    simp [Send, e1 h1, h2, h3, h4, h5]
  · constructor
    · rintro ⟨e, he, -⟩
      by_contra hv
      rw [Send_invalid_log env m host hv] at he
      simp at he
    · intro hv
      obtain ⟨es, hes⟩ := connect_log env m host
      rw [Send_valid env m host hv, hes]
      exact ⟨_, List.mem_cons_self _ _, rfl⟩

/-! ## The session on a sound connection -/

/-- On a sound connection `dosend` delivers the command and receives the reply to it. -/
theorem dosend_healthy (env : Env) (rw : readwrite) (m : Str) (h : Healthy env)
    (hw : rw.w = []) :
    (dosend env rw m).2 =
      { r := rw.r ++ env.reply rw.nsent m, w := [], nsent := rw.nsent + 1,
        log := rw.log ++ [Event.write m, Event.flush] } := by
  simp [dosend, readwrite.WriteString, readwrite.Flush, h _, hw]

/-- On a sound connection with nothing pending, `sendrecv` reads the whole reply
to its command. -/
theorem sendrecv_healthy (env : Env) (rw : readwrite) (m : Str) (conts : List Str) (fin : Str)
    (h : Healthy env) (hr : rw.r = []) (hw : rw.w = [])
    (hc : ∀ l ∈ conts, IsCont l) (hf : IsFinal fin)
    (hrep : env.reply rw.nsent m = cat conts ++ fin) :
    sendrecv env rw m =
      (Exit.ret { rcode := (Atoi (fin.take 3)).1, rtext := some 0,
                  err := (Atoi (fin.take 3)).2,
                  store := ⟨fin.drop 4, none⟩ :: List.replicate conts.length blank },
       after rw m (conts ++ [fin])) := by
  rw [sendrecv_eq, dosend_healthy env rw m h hw]
  rw [dorecv_reply _ conts fin [] hc hf (by simp [hr, hrep])]
  rfl

/-- An exchange on a sound connection with nothing pending, when the reply parses. -/
theorem exchange_healthy (env : Env) (rw : readwrite) (m : Str) (want : Int) (e : Error)
    (conts : List Str) (fin : Str) (h : Healthy env) (hr : rw.r = []) (hw : rw.w = [])
    (hc : ∀ l ∈ conts, IsCont l) (hf : IsFinal fin)
    (hrep : env.reply rw.nsent m = cat conts ++ fin) (hp : (Atoi (fin.take 3)).2 = none) :
    exchange env rw m want e =
      (Exit.ret (if (Atoi (fin.take 3)).1 ≠ want then Ctl.returned (some e) else Ctl.next),
       after rw m (conts ++ [fin])) := by
  simp only [exchange, sendrecv_healthy env rw m conts fin h hr hw hc hf hrep, hp]
  by_cases h : (Atoi (fin.take 3)).1 = want <;> simp [h]

/-- Reading a greeting that is a reply whose final line parses. -/
theorem greet_reply (rw : readwrite) (conts : List Str) (fin rest : Str)
    (hc : ∀ l ∈ conts, IsCont l) (hf : IsFinal fin) (hr : rw.r = cat conts ++ fin ++ rest)
    (hp : (Atoi (fin.take 3)).2 = none) :
    greet rw =
      (Exit.ret (if (Atoi (fin.take 3)).1 ≠ 220 then Ctl.returned (some Error.ErrNotReady)
                 else Ctl.next),
       { rw with r := rest, log := rw.log ++ (conts ++ [fin]).map Event.read }) := by
  simp only [greet, dorecv_reply rw conts fin rest hc hf hr, hp]
  by_cases h : (Atoi (fin.take 3)).1 = 220 <;> simp [h]

/-- C9: for a valid message and a connection that opens, when the greeting is a reply
whose final line parses to a code other than 220, `Send` returns `ErrNotReady`
and has written no command at all. -/
theorem send_greeting_not_220 (env : Env) (m : Message) (host : SMTP) (conts : List Str)
    (fin rest : Str) (hv : Valid m host) (hd : env.Dial = none)
    (hc : ∀ l ∈ conts, IsCont l) (hf : IsFinal fin) (hg : env.greeting = cat conts ++ fin ++ rest)
    (hp : (Atoi (fin.take 3)).2 = none) (hn : (Atoi (fin.take 3)).1 ≠ 220) :
    (Send env m host).1 = Exit.ret (0, some Error.ErrNotReady) ∧
      writes (Send env m host).2.log = [] := by
  have hgr := greet_reply (opened env host) conts fin rest hc hf (by simp [opened, hg]) hp
  simp only [hn, ne_eq, not_false_eq_true, if_true] at hgr
  have hs : session env m (opened env host) = greet (opened env host) := by
    simp [session, andThen, hgr]
  rw [Send_valid env m host hv]
  simp only [connect, hd, hs, hgr]
  refine ⟨trivial, ?_⟩
  rw [writes_append, writes_reads]
  simp [opened, writes]

/-- C9 at the package's test message and a server that greets with `421 busy`. -/
theorem send_greeting_not_220_witness :
    Valid testMsg tpg ∧ busyEnv.Dial = none ∧
    (Send busyEnv testMsg tpg).1 = Exit.ret (0, some Error.ErrNotReady) ∧
      writes (Send busyEnv testMsg tpg).2.log = [] :=
  ⟨by decide, rfl,
   send_greeting_not_220 busyEnv testMsg tpg [] (str "421 busy\r\n") [] (by decide) rfl
     (by decide) (by decide) (by decide) (by decide) (by decide)⟩

/-! ## The shape of the commands -/

/-- Splitting in two at the first separator. -/
theorem splitAtMost_one (sep : Char) (s : Str) (h : sep ∈ s) :
    ∃ a b, splitAtMost sep 1 s = [a, b] ∧ s = a ++ sep :: b ∧ sep ∉ a := by
  induction s with
  | nil => simp at h
  | cons c cs ih =>
    by_cases hc : c = sep
    · subst hc
      exact ⟨[], cs, by simp [splitAtMost], by simp, by simp⟩
    · have hcs : sep ∈ cs := by
        rcases List.mem_cons.1 h with h | h
        · exact absurd h.symm hc
        · exact h
      obtain ⟨a, b, h1, h2, h3⟩ := ih hcs
      refine ⟨c :: a, b, by simp [splitAtMost, hc, h1], by simp [h2], ?_⟩
      simp only [List.mem_cons, not_or]
      exact ⟨fun h => hc h.symm, h3⟩

/-- For an address with exactly one `@` the index 1 of the split is in range. -/
theorem domain_valid (m : Message) (h : m.From.Email.count '@' = 1) :
    (Split m.From.Email '@' 2)[1]? = some (domain m) := by
  have hm : '@' ∈ m.From.Email := List.count_pos_iff.1 (by omega)
  obtain ⟨a, b, h1, -, -⟩ := splitAtMost_one '@' m.From.Email hm
  simp [domain, Split, h1]

/-- No transaction command is a `HELO`. -/
theorem isHELO_TxCmd (m : Message) (c : Str) (h : TxCmd m c) : isHELO c = false := by
  rcases h with h | ⟨a, -, h⟩ | h | h | h
  · subst h
    unfold mailCmd
    split
    · simp [isHELO, fmtMailFrom, str]
    · simp [isHELO, fmtMailFromNamed, str]
  · subst h
    unfold rcptCmd
    split
    · simp [isHELO, fmtRcptToNamed, str]
    · simp [isHELO, fmtRcptTo, str]
  · subst h; decide
  · subst h; decide
  · subst h; decide

/-- An `EHLO` command is not a `HELO`. -/
theorem isHELO_EHLO (d : Str) : isHELO (fmtEHLO d) = false := by
  simp [isHELO, fmtEHLO, str]

/-- A `HELO` command is a `HELO`. -/
theorem isHELO_HELO (d : Str) : isHELO (fmtHELO d) = true := by
  simp [isHELO, fmtHELO, str]


/-- There is no `HELO` among transaction commands. -/
theorem countP_isHELO_TxCmd (m : Message) (ws : List Str) (h : ∀ c ∈ ws, TxCmd m c) :
    ws.countP isHELO = 0 := by
  rw [List.countP_eq_zero]
  intro c hc
  simp [isHELO_TxCmd m c (h c hc)]

/-- The transaction loop, when it has an iteration to run, writes `MAIL FROM` first,
and then transaction commands only. -/
theorem txLoop_first (env : Env) (m : Message) (rem i : Nat) (rw : readwrite) :
    ∃ es, (txLoop env m (rem + 1) i rw).2.log = rw.log ++ Event.write (mailCmd m) :: es ∧
      ∀ c ∈ writes es, TxCmd m c := by
  have h0 : Grows (TxCmd m) (exchange env rw (mailCmd m) 250 Error.ErrInvalidFromValue).2
      (txLoop env m (rem + 1) i rw).2 := by
    rw [txLoop, transaction]
    refine Grows_andThen _ _ (Grows_andThen _ _ (Grows.refl _ _) (fun a => ?_))
      (fun a => Grows_txLoop env m rem _ a)
    refine Grows_andThen _ _ ?_ (fun a => ?_)
    · split
      · exact Grows_combined env m a
      · exact Grows.refl _ a
    · rw [exchange_snd]
      exact Grows_sendrecv env _ _ (Or.inr (Or.inr (Or.inr (Or.inr rfl))))
  obtain ⟨e1, h1, p1⟩ := h0
  obtain ⟨e0, h2, p0⟩ := Grows_dorecv (TxCmd m) (dosend env rw (mailCmd m)).2
  rw [exchange_snd, sendrecv_eq] at h1
  rw [h2, dosend_log] at h1
  refine ⟨Event.flush :: (e0 ++ e1), by simp [h1], ?_⟩
  intro c hc
  simp only [writes, writes_append, List.mem_append] at hc
  exact hc.elim (p0 c) (p1 c)

/-- Closing the connection writes no command. -/
theorem connect_writes (env : Env) (m : Message) (host : SMTP) (hd : env.Dial = none) :
    writes (connect env m host).2.log = writes (session env m (opened env host)).2.log := by
  simp only [connect, hd]
  split
  · rfl
  · simp [writes_append, writes]
  · rfl
  · rfl

/-- When the session returns with an error, so does `Send`. -/
theorem connect_returned (env : Env) (m : Message) (host : SMTP) (hd : env.Dial = none)
    (e : Option Error) (h : (session env m (opened env host)).1 = Exit.ret (Ctl.returned e)) :
    (connect env m host).1 = Exit.ret (0, e) := by
  simp only [connect, hd, h]

/-- Reading the greeting on the fresh connection, when the greeting is one reply. -/
theorem greet_opened (env : Env) (host : SMTP) (gc : List Str) (gf : Str)
    (hgc : ∀ l ∈ gc, IsCont l) (hgf : IsFinal gf) (hg : env.greeting = cat gc ++ gf)
    (hp : (Atoi (gf.take 3)).2 = none) :
    greet (opened env host) =
      (Exit.ret (if (Atoi (gf.take 3)).1 ≠ 220 then Ctl.returned (some Error.ErrNotReady)
                 else Ctl.next),
       greeted host (gc ++ [gf])) := by
  rw [greet_reply (opened env host) gc gf [] hgc hgf (by simp [opened, hg]) hp]
  rfl

/-- The introduction on a sound connection, when the reply to `EHLO` parses. -/
theorem negotiate_healthy (env : Env) (m : Message) (rw : readwrite) (ec : List Str) (ef : Str)
    (hv : m.From.Email.count '@' = 1) (hh : Healthy env) (hr : rw.r = []) (hw : rw.w = [])
    (hec : ∀ l ∈ ec, IsCont l) (hef : IsFinal ef)
    (he : env.reply rw.nsent (fmtEHLO (domain m)) = cat ec ++ ef)
    (hep : (Atoi (ef.take 3)).2 = none) :
    negotiate env m rw =
      if (Atoi (ef.take 3)).1 ≠ 250 then
        exchange env (after rw (fmtEHLO (domain m)) (ec ++ [ef])) (fmtHELO (domain m)) 250
          Error.ErrHeloNotAccepted
      else (Exit.ret Ctl.next, after rw (fmtEHLO (domain m)) (ec ++ [ef])) := by
  simp only [negotiate, domain_valid m hv,
    sendrecv_healthy env rw (fmtEHLO (domain m)) ec ef hh hr hw hec hef he, hep]
  by_cases h : (Atoi (ef.take 3)).1 = 250 <;> simp [h]

/-- No command has been written once the greeting is read. -/
theorem writes_greeted (host : SMTP) (ls : List Str) : writes (greeted host ls).log = [] := by
  simp [greeted, writes, writes_reads]

/-- The commands written once a command has got its reply. -/
theorem writes_after (rw : readwrite) (m : Str) (ls : List Str) :
    writes (after rw m ls).log = writes rw.log ++ [m] := by
  simp [after, writes, writes_append, writes_reads]

/-- The introduction writes `EHLO` first, whatever follows it. -/
theorem negotiate_first (env : Env) (m : Message) (rw : readwrite)
    (hv : m.From.Email.count '@' = 1) (f : readwrite → Exit Ctl × readwrite)
    (hf : ∀ a, Grows (fun _ => True) a (f a).2) :
    ∃ es, (andThen (negotiate env m rw) f).2.log =
      rw.log ++ Event.write (fmtEHLO (domain m)) :: es := by
  have h1 : Grows (fun _ => True) (sendrecv env rw (fmtEHLO (domain m))).2
      (negotiate env m rw).2 := by
    simp only [negotiate, domain_valid m hv]
    split
    · split
      · exact Grows.refl _ _
      · split
        · rw [exchange_snd]
          exact Grows_sendrecv env _ _ trivial
        · exact Grows.refl _ _
    · exact Grows.refl _ _
    · exact Grows.refl _ _
  obtain ⟨e1, hl1, -⟩ := Grows_andThen _ f h1 hf
  obtain ⟨e0, hl0, -⟩ := Grows_dorecv (fun _ => True) (dosend env rw (fmtEHLO (domain m))).2
  rw [sendrecv_eq, hl0, dosend_log] at hl1
  exact ⟨Event.flush :: (e0 ++ e1), by simp [hl1]⟩

/-- C10: on a sound connection whose greeting is a reply with code 220, the first
command `Send` writes is `EHLO` with the domain of the From address. When the
reply to it has code 250, no `HELO` is written and the next command is
`MAIL FROM`. When it has another code, exactly one `HELO` is written, right after
the `EHLO`; if the reply to that has code 250 the next command is `MAIL FROM`,
otherwise `Send` returns `ErrHeloNotAccepted` having written these two commands
and nothing else. -/
theorem send_negotiation (env : Env) (m : Message) (host : SMTP) (gc : List Str) (gf : Str)
    (hv : Valid m host) (hd : env.Dial = none) (hh : Healthy env)
    (hgc : ∀ l ∈ gc, IsCont l) (hgf : IsFinal gf) (hg : env.greeting = cat gc ++ gf)
    (hg220 : Atoi (gf.take 3) = (220, none)) :
    (writes (Send env m host).2.log).head? = some (fmtEHLO (domain m)) ∧
    ∀ (ec : List Str) (ef : Str), (∀ l ∈ ec, IsCont l) → IsFinal ef →
      env.reply 0 (fmtEHLO (domain m)) = cat ec ++ ef → (Atoi (ef.take 3)).2 = none →
      ((Atoi (ef.take 3)).1 = 250 →
        (writes (Send env m host).2.log).countP isHELO = 0 ∧
        (writes (Send env m host).2.log)[1]? = some (mailCmd m)) ∧
      ((Atoi (ef.take 3)).1 ≠ 250 →
        ∀ (hcs : List Str) (hfin : Str), (∀ l ∈ hcs, IsCont l) → IsFinal hfin →
          env.reply 1 (fmtHELO (domain m)) = cat hcs ++ hfin → (Atoi (hfin.take 3)).2 = none →
          (writes (Send env m host).2.log).countP isHELO = 1 ∧
          (writes (Send env m host).2.log)[1]? = some (fmtHELO (domain m)) ∧
          ((Atoi (hfin.take 3)).1 = 250 →
            (writes (Send env m host).2.log)[2]? = some (mailCmd m)) ∧
          ((Atoi (hfin.take 3)).1 ≠ 250 →
            (Send env m host).1 = Exit.ret (0, some Error.ErrHeloNotAccepted) ∧
            writes (Send env m host).2.log = [fmtEHLO (domain m), fmtHELO (domain m)])) := by
  rw [Send_valid env m host hv, connect_writes env m host hd]
  have hgr := greet_opened env host gc gf hgc hgf hg (by rw [hg220])
  simp only [hg220, ne_eq, not_true_eq_false, if_false] at hgr
  have hs : session env m (opened env host) =
      andThen (negotiate env m (greeted host (gc ++ [gf])))
        (fun rw => txLoop env m (m.BCC.length + 1) 0 rw) := by
    simp [session, andThen, hgr, Nat.add_comm]
  constructor
  · obtain ⟨es, hlog⟩ := negotiate_first env m (greeted host (gc ++ [gf])) hv.1
      (fun rw => txLoop env m (m.BCC.length + 1) 0 rw)
      (fun a => (Grows_txLoop env m _ 0 a).mono (fun _ _ => trivial))
    rw [hs, hlog, writes_append, writes_greeted]
    simp [writes]
  intro ec ef hec hef he hep
  have hneg := negotiate_healthy env m (greeted host (gc ++ [gf])) ec ef hv.1 hh rfl rfl
    hec hef he hep
  by_cases hc : (Atoi (ef.take 3)).1 = 250
  · -- EHLO accepted
    simp only [hc, ne_eq, not_true_eq_false, if_false] at hneg
    have hs2 : session env m (opened env host) = txLoop env m (m.BCC.length + 1) 0
        (after (greeted host (gc ++ [gf])) (fmtEHLO (domain m)) (ec ++ [ef])) := by
      rw [hs, hneg]; rfl
    obtain ⟨es, hlog, hP⟩ := txLoop_first env m m.BCC.length 0
      (after (greeted host (gc ++ [gf])) (fmtEHLO (domain m)) (ec ++ [ef]))
    rw [hs2, hlog, writes_append, writes_after, writes_greeted]
    simp only [writes, List.nil_append, List.singleton_append]
    refine ⟨fun _ => ⟨?_, by simp⟩, fun h => absurd hc h⟩
    simp [List.countP_cons, isHELO_EHLO, isHELO_TxCmd m (mailCmd m) (Or.inl rfl),
      countP_isHELO_TxCmd m _ hP]
  · -- EHLO rejected
    simp only [hc, ne_eq, not_false_eq_true, if_true] at hneg
    refine ⟨fun h => absurd h hc, ?_⟩
    intro _ hcs hfin hhc hhf hrep hhp
    have hex := exchange_healthy env
      (after (greeted host (gc ++ [gf])) (fmtEHLO (domain m)) (ec ++ [ef]))
      (fmtHELO (domain m)) 250 Error.ErrHeloNotAccepted hcs hfin hh rfl rfl hhc hhf hrep hhp
    rw [hex] at hneg
    by_cases hc2 : (Atoi (hfin.take 3)).1 = 250
    · -- HELO accepted
      simp only [hc2, ne_eq, not_true_eq_false, if_false] at hneg
      have hs2 : session env m (opened env host) = txLoop env m (m.BCC.length + 1) 0
          (after (after (greeted host (gc ++ [gf])) (fmtEHLO (domain m)) (ec ++ [ef]))
            (fmtHELO (domain m)) (hcs ++ [hfin])) := by
        rw [hs, hneg]; rfl
      obtain ⟨es, hlog, hP⟩ := txLoop_first env m m.BCC.length 0
        (after (after (greeted host (gc ++ [gf])) (fmtEHLO (domain m)) (ec ++ [ef]))
            (fmtHELO (domain m)) (hcs ++ [hfin]))
      rw [hs2, hlog, writes_append, writes_after, writes_after, writes_greeted]
      simp only [writes, List.nil_append, List.singleton_append, List.cons_append]
      refine ⟨?_, by simp, fun _ => by simp, fun h => absurd hc2 h⟩
      simp [List.countP_cons, isHELO_EHLO, isHELO_HELO,
        isHELO_TxCmd m (mailCmd m) (Or.inl rfl), countP_isHELO_TxCmd m _ hP]
    · -- HELO rejected
      simp only [hc2, ne_eq, not_false_eq_true, if_true] at hneg
      have hs2 : session env m (opened env host) =
          (Exit.ret (Ctl.returned (some Error.ErrHeloNotAccepted)),
           after (after (greeted host (gc ++ [gf])) (fmtEHLO (domain m)) (ec ++ [ef]))
            (fmtHELO (domain m)) (hcs ++ [hfin])) := by
        rw [hs, hneg]; rfl
      have hret := connect_returned env m host hd (some Error.ErrHeloNotAccepted)
        (by rw [hs2])
      rw [hs2, writes_after, writes_after, writes_greeted]
      refine ⟨?_, by simp, fun h => absurd h hc2, fun _ => ⟨hret, by simp⟩⟩
      simp [List.countP_cons, isHELO_EHLO, isHELO_HELO]

/-- C10 at the package's test message and a server that answers `EHLO` with 500 and
`HELO` with 250: one `HELO` is written, after `EHLO` and before `MAIL FROM`. -/
theorem send_negotiation_witness :
    Valid testMsg tpg ∧ Healthy heloEnv ∧
    (writes (Send heloEnv testMsg tpg).2.log).head? = some (fmtEHLO (domain testMsg)) ∧
    (writes (Send heloEnv testMsg tpg).2.log).countP isHELO = 1 ∧
    (writes (Send heloEnv testMsg tpg).2.log)[1]? = some (fmtHELO (domain testMsg)) ∧
    (writes (Send heloEnv testMsg tpg).2.log)[2]? = some (mailCmd testMsg) :=
  have h := send_negotiation heloEnv testMsg tpg [] (str "220 ready\r\n")
    (by decide) rfl (fun _ => rfl) (by decide) (by decide) (by decide) (by decide)
  have h2 := (h.2 [] (str "500 unknown\r\n") (by decide) (by decide) (by decide)
    (by decide)).2 (by decide) [] (str "250 ok\r\n") (by decide) (by decide) (by decide)
    (by decide)
  ⟨by decide, fun _ => rfl, h.1, h2.1, h2.2.1, h2.2.2.1 (by decide)⟩

/-! ## Runs on concrete inputs -/

/-- C1 (code_bug): a valid message with one To and two CC recipients and no BCC, sent to
a server that accepts every command. `Send` does not return: the second recipient
loop reads `m.To[1]`, which is out of range. One `MAIL FROM` has been written by
then and no `QUIT`. -/
theorem send_more_cc_than_to_panics :
    Valid cc2Msg tpg ∧ (Send okEnv cc2Msg tpg).1 = Exit.panic ∧
    writes (Send okEnv cc2Msg tpg).2.log =
      [str "EHLO tpg.com.au\r\n", str "MAIL FROM:<trangtle@tpg.com.au>\r\n",
       fmtRcptToNamed (str "Bla") (str "zeffrin@gmail.com"),
       fmtRcptToNamed (str "Bla") (str "zeffrin@gmail.com")] := by
  decide

/-- C2 (code_bug): a valid message with the To recipient `bla` and the CC recipient
`carol`, sent to a server that accepts every command. `Send` returns no error; the
two `RCPT TO` commands it has written both carry the address of `bla`, and none
carries the address of `carol`. -/
theorem send_cc_repeats_to :
    Valid ccMsg tpg ∧ (Send okEnv ccMsg tpg).1 = Exit.ret (0, none) ∧
    writes (Send okEnv ccMsg tpg).2.log =
      [str "EHLO tpg.com.au\r\n", str "MAIL FROM:<trangtle@tpg.com.au>\r\n",
       rcptCmd bla, rcptCmd bla, str "DATA\r\n", str ".\r\n", str "QUIT\r\n"] ∧
    rcptCmd carol ∉ writes (Send okEnv ccMsg tpg).2.log := by
  decide

/-- C6 at a message whose From address is empty. -/
theorem send_invalid_from_witness :
    emptyMsg.From.Email.count '@' ≠ 1 ∧
    (Send okEnv emptyMsg tpg).1 = Exit.ret (0, some Error.ErrInvalidFromValue) ∧
      (Send okEnv emptyMsg tpg).2.log = [] :=
  ⟨by decide, send_invalid_from okEnv emptyMsg tpg (by decide)⟩

/-- C7 (as stated, refuted): a message with an empty To list and an empty From address
does not get `ErrNoRecipients`. -/
theorem send_empty_to_invalid_from :
    emptyMsg.To = [] ∧
    (Send okEnv emptyMsg tpg).1 ≠ Exit.ret (0, some Error.ErrNoRecipients) := by
  decide

/-- C7 (amended) at a message with a From address and no recipient. -/
theorem send_no_recipients_witness :
    noRcptMsg.From.Email.count '@' = 1 ∧ noRcptMsg.To = [] ∧
    (Send okEnv noRcptMsg tpg).1 = Exit.ret (0, some Error.ErrNoRecipients) ∧
      (Send okEnv noRcptMsg tpg).2.log = [] :=
  ⟨by decide, rfl, send_no_recipients okEnv noRcptMsg tpg (by decide) rfl⟩

/-- C8 at three messages: without a From address, without a recipient, and the
package's test message, for which the connection is dialled. -/
theorem send_validation_order_witness :
    (Send okEnv emptyMsg tpg).1 = Exit.ret (0, some Error.ErrInvalidFromValue) ∧
    (Send okEnv noRcptMsg tpg).1 = Exit.ret (0, some Error.ErrNoRecipients) ∧
    (∃ e ∈ (Send okEnv testMsg tpg).2.log, e.isDial = true) :=
  ⟨(send_validation_order okEnv emptyMsg tpg).1 (by decide),
   (send_validation_order okEnv noRcptMsg tpg).2.1 (by decide) rfl,
   (send_validation_order okEnv testMsg tpg).2.2.2.2.2.2.2 (by decide)⟩

/-! ## A server that accepts every command -/

/-- An exchange whose reply carries the wanted code runs on, with nothing pending. -/
theorem exchange_accept (env : Env) (rw : readwrite) (m : Str) (want : Int) (e : Error)
    (hh : Healthy env) (hq : Quiet rw)
    (hrep : ∃ cs f, (∀ l ∈ cs, IsCont l) ∧ IsFinal f ∧ env.reply rw.nsent m = cat cs ++ f ∧
      (Atoi (f.take 3)).2 = none ∧ (Atoi (f.take 3)).1 = want) :
    ∃ rw', exchange env rw m want e = (Exit.ret Ctl.next, rw') ∧ Quiet rw' ∧
      writes rw'.log = writes rw.log ++ [m] := by
  obtain ⟨cs, f, hc, hf, hr, hp, hw⟩ := hrep
  refine ⟨after rw m (cs ++ [f]), ?_, ⟨rfl, rfl⟩, writes_after rw m _⟩
  rw [exchange_healthy env rw m want e cs f hh hq.1 hq.2 hc hf hr hp]
  simp [hw]

/-- A recipient command starts with `RCPT TO:`. -/
theorem take_rcptCmd (a : Address) : (rcptCmd a).take 8 = str "RCPT TO:" := by
  unfold rcptCmd
  split
  · simp [fmtRcptToNamed, str]
  · simp [fmtRcptTo, str]

/-- The command that starts a transaction starts with `MAIL FROM:`. -/
theorem take_mailCmd (m : Message) : (mailCmd m).take 10 = str "MAIL FROM:" := by
  unfold mailCmd
  split
  · simp [fmtMailFrom, str]
  · simp [fmtMailFromNamed, str]

/-- An `EHLO` command starts with `EHLO `. -/
theorem take_fmtEHLO (d : Str) : (fmtEHLO d).take 5 = str "EHLO " := by
  simp [fmtEHLO, str]

/-- A recipient loop whose indices are in range, on an accepting server: one
recipient command for each entry of `To` it visits. -/
theorem rcptLoop_accept (env : Env) (To : List Address) (hh : Healthy env) (ha : Accepts env)
    (rem : Nat) :
    ∀ (k : Nat) (rw : readwrite), Quiet rw → k + rem ≤ To.length →
      ∃ rw', rcptLoop env To rem k rw = (Exit.ret Ctl.next, rw') ∧ Quiet rw' ∧
        writes rw'.log = writes rw.log ++ ((To.drop k).take rem).map rcptCmd := by
  induction rem with
  | zero => intro k rw hq _; exact ⟨rw, rfl, hq, by simp⟩
  | succ rem ih =>
    intro k rw hq hk
    have hlt : k < To.length := by omega
    obtain ⟨cs, f, h1, h2, h3, h4, -, -, h7⟩ := ha rw.nsent (rcptCmd To[k])
    obtain ⟨rw1, e1, q1, w1⟩ := exchange_accept env rw (rcptCmd To[k]) 250
      Error.ErrInvalidToValue hh hq
      ⟨cs, f, h1, h2, h3, h4, h7 (Or.inr (Or.inr (take_rcptCmd _)))⟩
    obtain ⟨rw2, e2, q2, w2⟩ := ih (k + 1) rw1 q1 (by omega)
    refine ⟨rw2, ?_, q2, ?_⟩
    · rw [rcptLoop, List.getElem?_eq_getElem hlt]
      simp only [andThen, e1, e2]
    · have hd : (To.drop k).take (rem + 1) = To[k] :: (To.drop (k + 1)).take rem := by
        rw [List.drop_eq_getElem_cons hlt, List.take_succ_cons]
      rw [w2, w1, hd, List.map_cons, List.append_assoc]
      rfl


/-- The terminator step on an accepting server. -/
theorem dotStep_accept (env : Env) (rw : readwrite) (hh : Healthy env) (ha : Accepts env)
    (hq : Quiet rw) :
    ∃ rw', dotStep env rw = (Exit.ret Ctl.next, rw') ∧ Quiet rw' ∧
      writes rw'.log = writes rw.log ++ [str ".\r\n"] := by
  obtain ⟨cs, f, h1, h2, h3, h4, -, -, -⟩ := ha rw.nsent (str ".\r\n")
  refine ⟨after rw (str ".\r\n") (cs ++ [f]), ?_, ⟨rfl, rfl⟩, writes_after rw _ _⟩
  simp [dotStep, sendrecv_healthy env rw (str ".\r\n") cs f hh hq.1 hq.2 h1 h2 h3, h4]

/-- The combined branch on an accepting server, when `m.CC` is no longer than `m.To`. -/
theorem combined_accept (env : Env) (m : Message) (rw : readwrite) (hh : Healthy env)
    (ha : Accepts env) (hq : Quiet rw) (hcc : m.CC.length ≤ m.To.length) :
    ∃ rw', combined env m rw = (Exit.ret Ctl.next, rw') ∧ Quiet rw' ∧
      writes rw'.log = writes rw.log ++ combinedWrites m := by
  obtain ⟨rw1, e1, q1, w1⟩ := rcptLoop_accept env m.To hh ha m.To.length 0 rw hq (by omega)
  obtain ⟨rw2, e2, q2, w2⟩ := rcptLoop_accept env m.To hh ha m.CC.length 0 rw1 q1 (by omega)
  obtain ⟨cs, f, h1, h2, h3, h4, h5, -, -⟩ := ha rw2.nsent (str "DATA\r\n")
  obtain ⟨rw3, e3, q3, w3⟩ := exchange_accept env rw2 (str "DATA\r\n") 354
    Error.ErrDataNotAccepted hh q2 ⟨cs, f, h1, h2, h3, h4, h5 rfl⟩
  obtain ⟨rw4, e4, q4, w4⟩ := dotStep_accept env rw3 hh ha q3
  refine ⟨rw4, ?_, q4, ?_⟩
  · simp only [combined, andThen, e1, e2, e3, e4]
  · rw [w4, w3, w2, w1]
    simp [combinedWrites]

/-- One transaction on an accepting server. -/
theorem transaction_accept (env : Env) (m : Message) (i : Nat) (rw : readwrite)
    (hh : Healthy env) (ha : Accepts env) (hq : Quiet rw) (hcc : m.CC.length ≤ m.To.length) :
    ∃ rw', transaction env m i rw = (Exit.ret Ctl.next, rw') ∧ Quiet rw' ∧
      writes rw'.log = writes rw.log ++
        (if i ≥ m.BCC.length then mailCmd m :: (combinedWrites m ++ [str "QUIT\r\n"])
         else [mailCmd m, str "QUIT\r\n"]) := by
  obtain ⟨cs, f, h1, h2, h3, h4, -, -, h7⟩ := ha rw.nsent (mailCmd m)
  obtain ⟨rw1, e1, q1, w1⟩ := exchange_accept env rw (mailCmd m) 250
    Error.ErrInvalidFromValue hh hq
    ⟨cs, f, h1, h2, h3, h4, h7 (Or.inr (Or.inl (take_mailCmd m)))⟩
  by_cases hi : i ≥ m.BCC.length
  · obtain ⟨rw2, e2, q2, w2⟩ := combined_accept env m rw1 hh ha q1 hcc
    obtain ⟨cs, f, h1, h2, h3, h4, -, h6, -⟩ := ha rw2.nsent (str "QUIT\r\n")
    obtain ⟨rw3, e3, q3, w3⟩ := exchange_accept env rw2 (str "QUIT\r\n") 221
      Error.ErrQuitNotAccepted hh q2 ⟨cs, f, h1, h2, h3, h4, h6 rfl⟩
    refine ⟨rw3, ?_, q3, ?_⟩
    · simp only [transaction, andThen, e1, hi, if_true, e2, e3]
    · rw [w3, w2, w1]
      simp [hi]
  · obtain ⟨cs, f, h1, h2, h3, h4, -, h6, -⟩ := ha rw1.nsent (str "QUIT\r\n")
    obtain ⟨rw3, e3, q3, w3⟩ := exchange_accept env rw1 (str "QUIT\r\n") 221
      Error.ErrQuitNotAccepted hh q1 ⟨cs, f, h1, h2, h3, h4, h6 rfl⟩
    refine ⟨rw3, ?_, q3, ?_⟩
    · simp only [transaction, andThen, e1, hi, if_false, e3]
    · rw [w3, w1]
      simp [hi]

/-- The transaction loop on an accepting server, with `rem + 1` iterations left. -/
theorem txLoop_accept (env : Env) (m : Message) (hh : Healthy env) (ha : Accepts env)
    (hcc : m.CC.length ≤ m.To.length) (rem : Nat) :
    ∀ (i : Nat) (rw : readwrite), Quiet rw → i + rem = m.BCC.length →
      ∃ rw', txLoop env m (rem + 1) i rw = (Exit.ret Ctl.next, rw') ∧ Quiet rw' ∧
        writes rw'.log = writes rw.log ++
          (bccWrites m rem ++ mailCmd m :: (combinedWrites m ++ [str "QUIT\r\n"])) := by
  induction rem with
  | zero =>
    intro i rw hq hi
    obtain ⟨rw1, e1, q1, w1⟩ := transaction_accept env m i rw hh ha hq hcc
    have hge : i ≥ m.BCC.length := by omega
    refine ⟨rw1, ?_, q1, ?_⟩
    · simp only [txLoop, andThen, e1]
    · rw [w1]
      simp [hge, bccWrites]
  | succ rem ih =>
    intro i rw hq hi
    obtain ⟨rw1, e1, q1, w1⟩ := transaction_accept env m i rw hh ha hq hcc
    have hlt : ¬ i ≥ m.BCC.length := by omega
    obtain ⟨rw2, e2, q2, w2⟩ := ih (i + 1) rw1 q1 (by omega)
    refine ⟨rw2, ?_, q2, ?_⟩
    · rw [txLoop]
      simp only [andThen, e1, e2]
    · rw [w2, w1]
      simp [hlt, bccWrites]

/-- On a sound connection to a server that accepts every command, for a valid
message with no more CC than To recipients, `Send` returns no error and writes
`EHLO`, then `MAIL FROM` and `QUIT` once for each BCC entry, then the combined
transaction ending in `QUIT`. -/
theorem send_accepting (env : Env) (m : Message) (host : SMTP) (gc : List Str) (gf : Str)
    (hv : Valid m host) (hd : env.Dial = none) (hcl : env.Close = none) (hh : Healthy env)
    (hgc : ∀ l ∈ gc, IsCont l) (hgf : IsFinal gf) (hg : env.greeting = cat gc ++ gf)
    (hg220 : Atoi (gf.take 3) = (220, none)) (ha : Accepts env)
    (hcc : m.CC.length ≤ m.To.length) :
    (Send env m host).1 = Exit.ret (0, none) ∧
    writes (Send env m host).2.log =
      fmtEHLO (domain m) :: (bccWrites m m.BCC.length ++
        mailCmd m :: (combinedWrites m ++ [str "QUIT\r\n"])) := by
  have hgr := greet_opened env host gc gf hgc hgf hg (by rw [hg220])
  simp only [hg220, ne_eq, not_true_eq_false, if_false] at hgr
  obtain ⟨cs, f, h1, h2, h3, h4, -, -, h7⟩ := ha 0 (fmtEHLO (domain m))
  have hneg := negotiate_healthy env m (greeted host (gc ++ [gf])) cs f hv.1 hh rfl rfl
    h1 h2 h3 h4
  simp only [h7 (Or.inl (take_fmtEHLO _)), ne_eq, not_true_eq_false, if_false] at hneg
  obtain ⟨rw', e, -, w⟩ := txLoop_accept env m hh ha hcc m.BCC.length 0
    (after (greeted host (gc ++ [gf])) (fmtEHLO (domain m)) (cs ++ [f])) ⟨rfl, rfl⟩ (by omega)
  have hs : session env m (opened env host) = (Exit.ret Ctl.next, rw') := by
    simp only [session, andThen, hgr, hneg, Nat.add_comm 1, e]
  rw [Send_valid env m host hv, connect_writes env m host hd, hs, w, writes_after,
    writes_greeted]
  refine ⟨?_, rfl⟩
  simp only [connect, hd, hs, hcl]


/-- The server `okEnv` accepts every command. -/
theorem okEnv_accepts : Accepts okEnv := by
  intro k c
  have t4 : ∀ n (p : Str), 4 ≤ n → c.take n = p → c.take 4 = p.take 4 := by
    intro n p hn hp
    rw [← hp, List.take_take, Nat.min_eq_left hn]
  by_cases hD : c.take 4 = str "DATA"
  · refine ⟨[], str "354 go ahead\r\n", by simp, by decide, by simp [okEnv, hD, cat], by decide,
      fun _ => by decide, ?_, ?_⟩
    · intro h; rw [h] at hD; revert hD; decide
    · rintro (h | h | h)
      · have := t4 5 _ (by omega) h; rw [hD] at this; revert this; decide
      · have := t4 10 _ (by omega) h; rw [hD] at this; revert this; decide
      · have := t4 8 _ (by omega) h; rw [hD] at this; revert this; decide
  · by_cases hQ : c.take 4 = str "QUIT"
    · have hne : ¬ str "QUIT" = str "DATA" := by decide
      refine ⟨[], str "221 bye\r\n", by simp, by decide, by simp [okEnv, hQ, hne, cat],
        by decide, ?_, fun _ => by decide, ?_⟩
      · intro h; rw [h] at hD; exact absurd (by decide) hD
      · rintro (h | h | h)
        · have := t4 5 _ (by omega) h; rw [hQ] at this; revert this; decide
        · have := t4 10 _ (by omega) h; rw [hQ] at this; revert this; decide
        · have := t4 8 _ (by omega) h; rw [hQ] at this; revert this; decide
    · refine ⟨[], str "250 ok\r\n", by simp, by decide, by simp [okEnv, hD, hQ, cat],
        by decide, ?_, ?_, fun _ => by decide⟩
      · intro h; rw [h] at hD; exact absurd (by decide) hD
      · intro h; rw [h] at hQ; exact absurd (by decide) hQ

/-- The run of `Send` on the message with one CC recipient, from the general result. -/
theorem send_accepting_test :
    (Send okEnv ccMsg tpg).1 = Exit.ret (0, none) ∧
    writes (Send okEnv ccMsg tpg).2.log =
      fmtEHLO (domain ccMsg) :: (bccWrites ccMsg ccMsg.BCC.length ++
        mailCmd ccMsg :: (combinedWrites ccMsg ++ [str "QUIT\r\n"])) :=
  send_accepting okEnv ccMsg tpg [] (str "220 ready\r\n") (by decide) rfl rfl (fun _ => rfl)
    (by decide) (by decide) (by decide) (by decide) okEnv_accepts (by decide)

/-! ## Every run of `dorecv` ends -/

/-- What `readUntil` returns: no error exactly when the bytes returned are a line. -/
theorem readUntil_spec (s : Str) :
    ((readUntil '\n' s).2.2 = none ∧ IsLine (readUntil '\n' s).1 ∧
        s = (readUntil '\n' s).1 ++ (readUntil '\n' s).2.1) ∨
    ((readUntil '\n' s).2.2 = some Error.EOF ∧ '\n' ∉ (readUntil '\n' s).1) := by
  induction s with
  | nil => right; simp [readUntil]
  | cons c cs ih =>
    by_cases hc : c = '\n'
    · left
      subst hc
      simp [readUntil, IsLine]
    · rcases ih with ⟨h1, h2, h3⟩ | ⟨h1, h2⟩
      · left
        obtain ⟨h2a, h2b⟩ := h2
        have hne : (readUntil '\n' cs).1 ≠ [] := by
          intro h; rw [h] at h2a; simp at h2a
        refine ⟨by simp [readUntil, hc, h1], ⟨?_, ?_⟩, ?_⟩
        · simp only [readUntil, hc, if_false]
          rw [List.dropLast_cons_of_ne_nil hne, List.cons_append, ← h2a]
        · simp only [readUntil, hc, if_false]
          rw [List.dropLast_cons_of_ne_nil hne]
          simp only [List.mem_cons, not_or]
          exact ⟨fun h => hc h.symm, h2b⟩
        · simp only [readUntil, hc, if_false, List.cons_append]
          rw [← h3]
      · right
        refine ⟨by simp [readUntil, hc, h1], ?_⟩
        simp only [readUntil, hc, if_false, List.mem_cons, not_or]
        exact ⟨fun h => hc h.symm, h2⟩

/-- Bytes without a newline are not a line. -/
theorem not_IsLine_of_not_mem (l : Str) (h : '\n' ∉ l) : ¬ IsLine l := by
  intro hl
  apply h
  rw [hl.1]
  simp


/-- One iteration of the loop of `dorecv` when it is the first. -/
theorem dorecvLoop_zero (fuel : Nat) (rtext curr : Option Nat) (rw : readwrite) :
    dorecvLoop (fuel + 1) 0 rtext curr [] rw =
      if (rw.ReadString '\n').2.1 ≠ none then
        (Exit.ret { rcode := 0, rtext := rtext, err := (rw.ReadString '\n').2.1, store := [] },
         (rw.ReadString '\n').2.2)
      else if (rw.ReadString '\n').1.length < 4 then (Exit.panic, (rw.ReadString '\n').2.2)
      else if (rw.ReadString '\n').1[3]? ≠ some '-' then
        (Exit.ret { rcode := (Atoi ((rw.ReadString '\n').1.take 3)).1, rtext := some 0,
                    err := (Atoi ((rw.ReadString '\n').1.take 3)).2,
                    store := [⟨(rw.ReadString '\n').1.drop 4, none⟩] },
         (rw.ReadString '\n').2.2)
      else dorecvLoop fuel 1 (some 0) (some 0) [⟨(rw.ReadString '\n').1.drop 4, none⟩]
        (rw.ReadString '\n').2.2 := by
  rw [dorecvLoop]
  by_cases h1 : (rw.ReadString '\n').2.1 = none
  · by_cases h2 : (rw.ReadString '\n').1.length < 4
    · simp [h1, h2]
    · have h3 : 3 < (rw.ReadString '\n').1.length := by omega
      by_cases h4 : (rw.ReadString '\n').1[3]? = some '-'
      · simp [h1, h2, h3, h4, setText, List.modify, blank]
      · simp [h1, h2, h3, h4, setText, List.modify, blank]
  · simp [h1]

/-- One iteration of the loop of `dorecv` when it is not the first. -/
theorem dorecvLoop_pos (fuel i : Nat) (t : Str) (tail : List response) (rw : readwrite)
    (hi : i ≠ 0) :
    dorecvLoop (fuel + 1) i (some 0) (some 0) (⟨t, none⟩ :: tail) rw =
      if (rw.ReadString '\n').2.1 ≠ none then
        (Exit.ret { rcode := 0, rtext := some 0, err := (rw.ReadString '\n').2.1,
                    store := ⟨t, none⟩ :: tail },
         (rw.ReadString '\n').2.2)
      else if (rw.ReadString '\n').1.length < 4 then (Exit.panic, (rw.ReadString '\n').2.2)
      else if (rw.ReadString '\n').1[3]? ≠ some '-' then
        (Exit.ret { rcode := (Atoi ((rw.ReadString '\n').1.take 3)).1, rtext := some 0,
                    err := (Atoi ((rw.ReadString '\n').1.take 3)).2,
                    store := ⟨(rw.ReadString '\n').1.drop 4, none⟩ :: (tail ++ [blank]) },
         (rw.ReadString '\n').2.2)
      else dorecvLoop fuel (i + 1) (some 0) (some 0)
        (⟨(rw.ReadString '\n').1.drop 4, none⟩ :: (tail ++ [blank])) (rw.ReadString '\n').2.2 := by
  rw [dorecvLoop]
  by_cases h1 : (rw.ReadString '\n').2.1 = none
  · by_cases h2 : (rw.ReadString '\n').1.length < 4
    · simp [h1, h2, hi, setText, setNext, List.modify, blank]
    · have h3 : 3 < (rw.ReadString '\n').1.length := by omega
      by_cases h4 : (rw.ReadString '\n').1[3]? = some '-'
      · simp [h1, h2, h3, h4, hi, setText, setNext, List.modify, blank]
      · simp [h1, h2, h3, h4, hi, setText, setNext, List.modify, blank]
  · simp [h1, hi]


/-- One iteration of the loop of `dorecv`, first or later: it returns on a read error,
stops on a line under 4 bytes, returns on a final line, and goes on otherwise. -/
theorem dorecvLoop_step (fuel i : Nat) (rtext curr : Option Nat) (st : List response)
    (rw : readwrite) (h : LoopInv i rtext curr st) :
    ∃ st1 st2, LoopInv (i + 1) (some 0) (some 0) st2 ∧
    dorecvLoop (fuel + 1) i rtext curr st rw =
      if (rw.ReadString '\n').2.1 ≠ none then
        (Exit.ret { rcode := 0, rtext := rtext, err := (rw.ReadString '\n').2.1, store := st },
         (rw.ReadString '\n').2.2)
      else if (rw.ReadString '\n').1.length < 4 then (Exit.panic, (rw.ReadString '\n').2.2)
      else if (rw.ReadString '\n').1[3]? ≠ some '-' then
        (Exit.ret { rcode := (Atoi ((rw.ReadString '\n').1.take 3)).1, rtext := some 0,
                    err := (Atoi ((rw.ReadString '\n').1.take 3)).2, store := st1 },
         (rw.ReadString '\n').2.2)
      else dorecvLoop fuel (i + 1) (some 0) (some 0) st2 (rw.ReadString '\n').2.2 := by
  rcases h with ⟨rfl, rfl⟩ | ⟨hi, rfl, rfl, t, tail, rfl⟩
  · exact ⟨_, _, Or.inr ⟨by omega, rfl, rfl, _, _, rfl⟩, dorecvLoop_zero fuel rtext curr rw⟩
  · exact ⟨_, _, Or.inr ⟨by omega, rfl, rfl, _, _, rfl⟩, dorecvLoop_pos fuel i t tail rw hi⟩

/-- A `ReadString` call that succeeds consumes at least one byte. -/
theorem ReadString_shrinks (rw : readwrite) (h : (rw.ReadString '\n').2.1 = none) :
    (rw.ReadString '\n').2.2.r.length < rw.r.length := by
  rcases readUntil_spec rw.r with ⟨-, h2, h3⟩ | ⟨h1, -⟩
  · have hlen : 0 < (readUntil '\n' rw.r).1.length := by
      rw [h2.1]; simp
    have := congrArg List.length h3
    simp only [List.length_append] at this
    simp only [readwrite.ReadString]
    omega
  · simp [readwrite.ReadString, h1] at h

/-- The loop of `dorecv` ends within as many iterations as there are unread bytes,
plus one. -/
theorem dorecvLoop_total (fuel : Nat) :
    ∀ (i : Nat) (rtext curr : Option Nat) (st : List response) (rw : readwrite),
      LoopInv i rtext curr st → rw.r.length < fuel →
      (dorecvLoop fuel i rtext curr st rw).1 ≠ Exit.diverge := by
  induction fuel with
  | zero => intro i rtext curr st rw _ h; omega
  | succ fuel ih =>
    intro i rtext curr st rw hinv hlt
    obtain ⟨st1, st2, hinv2, heq⟩ := dorecvLoop_step fuel i rtext curr st rw hinv
    rw [heq]
    by_cases h1 : (rw.ReadString '\n').2.1 = none
    · have hs := ReadString_shrinks rw h1
      simp only [h1, ne_eq, not_true_eq_false, if_false]
      split
      · simp
      · split
        · simp
        · exact ih _ _ _ _ _ hinv2 (by omega)
    · simp [h1]

/-- The function `dorecv` always ends. -/
theorem dorecv_total (rw : readwrite) : (dorecv rw).1 ≠ Exit.diverge :=
  dorecvLoop_total _ 0 none none [] rw (Or.inl ⟨rfl, rfl⟩) (by omega)


/-- A read, when a read is what has to come. -/
theorem stepM_read (co : Option Str) (p : Phase) (h : Awaits co p) (l : Str) :
    p.stepM (Event.read l) =
      some (if IsFinal l then Phase.replied co l else Phase.reading co) := by
  rcases h with ⟨rfl, rfl⟩ | ⟨c, rfl, rfl⟩ | rfl <;>
    simp [Phase.stepM, Phase.rejection, Phase.must, Phase.step]

/-- A `ReadString` call logs the bytes it returns. -/
theorem ReadString_log (rw : readwrite) :
    (rw.ReadString '\n').2.2.log = rw.log ++ [Event.read (rw.ReadString '\n').1] := by
  simp [readwrite.ReadString]

/-- A `ReadString` call returns a line exactly when it returns no error. -/
theorem ReadString_line_iff (rw : readwrite) :
    IsLine (rw.ReadString '\n').1 ↔ (rw.ReadString '\n').2.1 = none := by
  simp only [readwrite.ReadString]
  rcases readUntil_spec rw.r with ⟨h1, h2, -⟩ | ⟨h1, h2⟩
  · simp [h1, h2]
  · simp [h1, not_IsLine_of_not_mem _ h2]

/-- One reply read, seen by the monitor: the reads end in a complete reply whose
final line gives the code and the error returned, or inside a reply, and then an
error is returned or nothing is. -/
theorem recv_tracks (fuel : Nat) :
    ∀ (i : Nat) (rtext curr : Option Nat) (st : List response) (rw : readwrite) (p : Phase)
      (co : Option Str), LoopInv i rtext curr st → Awaits co p →
      ∃ es p', (dorecvLoop (fuel + 1) i rtext curr st rw).2.log = rw.log ++ es ∧
        p.runM es = some p' ∧
        ((∃ l v, p' = Phase.replied co l ∧
            (dorecvLoop (fuel + 1) i rtext curr st rw).1 = Exit.ret v ∧
            v.rcode = (Atoi (l.take 3)).1 ∧ v.err = (Atoi (l.take 3)).2) ∨
         (p' = Phase.reading co ∧
            ∀ v, (dorecvLoop (fuel + 1) i rtext curr st rw).1 = Exit.ret v → v.err ≠ none)) := by
  induction fuel with
  | zero =>
    intro i rtext curr st rw p co hinv hp
    obtain ⟨st1, st2, -, heq⟩ := dorecvLoop_step 0 i rtext curr st rw hinv
    rw [heq]
    have hlog := ReadString_log rw
    have hline := ReadString_line_iff rw
    have hstep := stepM_read co p hp (rw.ReadString '\n').1
    by_cases h1 : (rw.ReadString '\n').2.1 = none
    · simp only [h1, ne_eq, not_true_eq_false, if_false]
      by_cases h2 : (rw.ReadString '\n').1.length < 4
      · have hnf : ¬ IsFinal (rw.ReadString '\n').1 := fun h => by have := h.2.1; omega
        simp only [h2, if_true]
        exact ⟨_, _, hlog, by simp [Phase.runM, hstep, hnf], Or.inr ⟨rfl, by simp⟩⟩
      · simp only [h2, if_false]
        by_cases h3 : (rw.ReadString '\n').1[3]? = some '-'
        · have hnf : ¬ IsFinal (rw.ReadString '\n').1 := fun h => h.2.2 h3
          simp only [h3, not_true_eq_false, if_false, dorecvLoop]
          exact ⟨_, _, hlog, by simp [Phase.runM, hstep, hnf], Or.inr ⟨rfl, by simp⟩⟩
        · have hf : IsFinal (rw.ReadString '\n').1 := ⟨hline.2 h1, by omega, h3⟩
          simp only [h3, not_false_eq_true, if_true]
          exact ⟨_, _, hlog, by simp [Phase.runM, hstep, hf], Or.inl ⟨_, _, rfl, rfl, rfl, rfl⟩⟩
    · have hnf : ¬ IsFinal (rw.ReadString '\n').1 := fun h => h1 (hline.1 h.1)
      simp only [h1, ne_eq, not_false_eq_true, if_true]
      exact ⟨_, _, hlog, by simp [Phase.runM, hstep, hnf],
        Or.inr ⟨rfl, by intro v hv; cases hv; exact h1⟩⟩
  | succ fuel ih =>
    intro i rtext curr st rw p co hinv hp
    obtain ⟨st1, st2, hinv2, heq⟩ := dorecvLoop_step (fuel + 1) i rtext curr st rw hinv
    rw [heq]
    have hlog := ReadString_log rw
    have hline := ReadString_line_iff rw
    have hstep := stepM_read co p hp (rw.ReadString '\n').1
    by_cases h1 : (rw.ReadString '\n').2.1 = none
    · simp only [h1, ne_eq, not_true_eq_false, if_false]
      by_cases h2 : (rw.ReadString '\n').1.length < 4
      · have hnf : ¬ IsFinal (rw.ReadString '\n').1 := fun h => by have := h.2.1; omega
        simp only [h2, if_true]
        exact ⟨_, _, hlog, by simp [Phase.runM, hstep, hnf], Or.inr ⟨rfl, by simp⟩⟩
      · simp only [h2, if_false]
        by_cases h3 : (rw.ReadString '\n').1[3]? = some '-'
        · have hnf : ¬ IsFinal (rw.ReadString '\n').1 := fun h => h.2.2 h3
          simp only [h3, not_true_eq_false, if_false]
          obtain ⟨es, p', hl, hr, hres⟩ := ih (i + 1) (some 0) (some 0) st2
            (rw.ReadString '\n').2.2 (Phase.reading co) co hinv2 (Or.inr (Or.inr rfl))
          refine ⟨Event.read (rw.ReadString '\n').1 :: es, p', ?_, ?_, hres⟩
          · rw [hl, hlog]; simp
          · simp [Phase.runM, hstep, hnf, hr]
        · have hf : IsFinal (rw.ReadString '\n').1 := ⟨hline.2 h1, by omega, h3⟩
          simp only [h3, not_false_eq_true, if_true]
          exact ⟨_, _, hlog, by simp [Phase.runM, hstep, hf], Or.inl ⟨_, _, rfl, rfl, rfl, rfl⟩⟩
    · have hnf : ¬ IsFinal (rw.ReadString '\n').1 := fun h => h1 (hline.1 h.1)
      simp only [h1, ne_eq, not_false_eq_true, if_true]
      exact ⟨_, _, hlog, by simp [Phase.runM, hstep, hnf],
        Or.inr ⟨rfl, by intro v hv; cases hv; exact h1⟩⟩


/-- The monitor on two logs put end to end. -/
theorem runM_append (es1 es2 : List Event) :
    ∀ p : Phase, p.runM (es1 ++ es2) = (p.runM es1).bind (fun q => q.runM es2) := by
  induction es1 with
  | nil => intro p; rfl
  | cons e es ih =>
    intro p
    simp only [List.cons_append, Phase.runM]
    cases p.stepM e with
    | none => rfl
    | some q => exact ih q

/-- The lock-step phases on two logs put end to end. -/
theorem run_append (es1 es2 : List Event) :
    ∀ p : Phase, p.run (es1 ++ es2) = (p.run es1).bind (fun q => q.run es2) := by
  induction es1 with
  | nil => intro p; rfl
  | cons e es ih =>
    intro p
    simp only [List.cons_append, Phase.run]
    cases p.step e with
    | none => rfl
    | some q => exact ih q

/-- A call that the monitor lets pass keeps lock-step. -/
theorem stepM_step (p q : Phase) (e : Event) (h : p.stepM e = some q) : p.step e = some q := by
  unfold Phase.stepM at h
  split at h
  · cases h
  · split at h
    · split at h
      · exact h
      · cases h
    · exact h

/-- A log that the monitor lets pass keeps lock-step, and ends in the same phase. -/
theorem runM_run (es : List Event) : ∀ p q : Phase, p.runM es = some q → p.run es = some q := by
  induction es with
  | nil => intro p q h; exact h
  | cons e es ih =>
    intro p q h
    simp only [Phase.runM] at h
    cases hs : p.stepM e with
    | none => rw [hs] at h; cases h
    | some r =>
      rw [hs] at h
      simp only [Phase.run, stepM_step p r e hs]
      exact ih r q h

/-- The function `dorecv`, seen by the monitor. -/
theorem dorecv_tracks (rw : readwrite) (p : Phase) (co : Option Str) (hp : Awaits co p) :
    ∃ es p', (dorecv rw).2.log = rw.log ++ es ∧ p.runM es = some p' ∧
      ((∃ l v, p' = Phase.replied co l ∧ (dorecv rw).1 = Exit.ret v ∧
          v.rcode = (Atoi (l.take 3)).1 ∧ v.err = (Atoi (l.take 3)).2) ∨
       (p' = Phase.reading co ∧ ∀ v, (dorecv rw).1 = Exit.ret v → v.err ≠ none)) :=
  recv_tracks _ 0 none none [] rw p co (Or.inl ⟨rfl, rfl⟩) hp

/-- The function `sendrecv`, seen by the monitor: write, flush, one reply read. -/
theorem sendrecv_tracks (env : Env) (rw : readwrite) (c : Str) (p : Phase)
    (hp : CanWrite c p) :
    ∃ es p', (sendrecv env rw c).2.log = rw.log ++ es ∧ p.runM es = some p' ∧
      ((∃ l v, p' = Phase.replied (some c) l ∧ (sendrecv env rw c).1 = Exit.ret v ∧
          v.rcode = (Atoi (l.take 3)).1 ∧ v.err = (Atoi (l.take 3)).2) ∨
       (p' = Phase.reading (some c) ∧
          ∀ v, (sendrecv env rw c).1 = Exit.ret v → v.err ≠ none)) := by
  obtain ⟨⟨c0, l0, rfl⟩, hrej, hmust⟩ := hp
  rw [sendrecv_eq]
  obtain ⟨es, p', hl, hr, hres⟩ := dorecv_tracks (dosend env rw c).2 (Phase.flushed c) (some c)
    (Or.inr (Or.inl ⟨c, rfl, rfl⟩))
  refine ⟨Event.write c :: Event.flush :: es, p', ?_, ?_, hres⟩
  · rw [hl, dosend_log]; simp
  · have h1 : (Phase.replied c0 l0).stepM (Event.write c) = some (Phase.written c) := by
      rcases hmust with h | h <;> simp [Phase.stepM, hrej, h, Phase.step]
    have h2 : (Phase.written c).stepM Event.flush = some (Phase.flushed c) := by
      simp [Phase.stepM, Phase.rejection, Phase.must, Phase.step]
    simp [Phase.runM, h1, h2, hr]

/-- The two clauses of `Tracks` for a step that runs on. -/
theorem post_next {Q : Phase → Prop} {p' : Phase} {o : Exit Ctl}
    (h : o = Exit.ret Ctl.next) (hq : Q p') :
    (o = Exit.ret Ctl.next → Q p') ∧
    (o ≠ Exit.ret Ctl.next → p'.pending = false ∧ p'.must = none ∧
      ∀ e, p'.rejection = some e → o = Exit.ret (Ctl.returned (some e))) :=
  ⟨fun _ => hq, fun hn => absurd h hn⟩

/-- The two clauses of `Tracks` for a step that stops. -/
theorem post_stop {Q : Phase → Prop} {p' : Phase} {o : Exit Ctl}
    (hn : o ≠ Exit.ret Ctl.next) (h1 : p'.pending = false) (h2 : p'.must = none)
    (h3 : ∀ e, p'.rejection = some e → o = Exit.ret (Ctl.returned (some e))) :
    (o = Exit.ret Ctl.next → Q p') ∧
    (o ≠ Exit.ret Ctl.next → p'.pending = false ∧ p'.must = none ∧
      ∀ e, p'.rejection = some e → o = Exit.ret (Ctl.returned (some e))) :=
  ⟨fun h => absurd h hn, fun _ => ⟨h1, h2, h3⟩⟩

/-- What an exchange returns, from what its `sendrecv` returns. -/
theorem exchange_fst (env : Env) (rw : readwrite) (c : Str) (want : Int) (e : Error) :
    (exchange env rw c want e).1 =
      match (sendrecv env rw c).1 with
      | Exit.ret v =>
        if v.err ≠ none then Exit.ret (Ctl.returned v.err)
        else if v.rcode ≠ want then Exit.ret (Ctl.returned (some e))
        else Exit.ret Ctl.next
      | Exit.panic => Exit.panic
      | Exit.diverge => Exit.diverge := by
  cases hx : (sendrecv env rw c).1 with
  | ret v =>
    simp only [exchange, hx]
    by_cases h1 : v.err = none
    · by_cases h2 : v.rcode = want <;> simp [h1, h2]
    · simp [h1]
  | panic => simp only [exchange, hx]
  | diverge => simp only [exchange, hx]

/-- An exchange, seen by the monitor, when its wanted code and error agree with
`verdict` on its command. -/
theorem exchange_tracks (env : Env) (rw : readwrite) (c : Str) (want : Int) (e : Error)
    (p : Phase) (Q : Phase → Prop) (hp : CanWrite c p)
    (hv : ∀ code e', verdict c code = some e' → code ≠ want ∧ e' = e)
    (hQ : ∀ l, Atoi (l.take 3) = (want, none) → Q (Phase.replied (some c) l))
    (hm : ∀ l, (Atoi (l.take 3)).1 ≠ want → (Phase.replied (some c) l).must = none) :
    Tracks Q p rw (exchange env rw c want e) := by
  obtain ⟨es, p', hl, hr, hres⟩ := sendrecv_tracks env rw c p hp
  refine ⟨es, p', by rw [exchange_snd, hl], hr, ?_⟩
  rw [exchange_fst]
  rcases hres with ⟨l, v, rfl, hv1, hcode, herr⟩ | ⟨rfl, hv1⟩
  · rw [hv1]
    by_cases h1 : v.err = none
    · have hp2 : (Atoi (l.take 3)).2 = none := by rw [← herr, h1]
      by_cases h2 : v.rcode = want
      · refine post_next (by simp [h1, h2]) (hQ l ?_)
        rw [Prod.ext_iff]; exact ⟨by rw [← hcode, h2], hp2⟩
      · have hne : (Atoi (l.take 3)).1 ≠ want := by rw [← hcode]; exact h2
        have ho : (if v.err ≠ none then Exit.ret (Ctl.returned v.err)
            else if v.rcode ≠ want then Exit.ret (Ctl.returned (some e))
            else Exit.ret Ctl.next) = Exit.ret (Ctl.returned (some e)) := by simp [h1, h2]
        simp only [ho]
        refine post_stop (by simp) rfl (hm l hne) ?_
        intro e' he'
        simp only [Phase.rejection, hp2, if_true] at he'
        rw [(hv _ _ he').2]
    · have hp2 : ¬ (Atoi (l.take 3)).2 = none := by rw [← herr]; exact h1
      have ho : (if v.err ≠ none then Exit.ret (Ctl.returned v.err)
          else if v.rcode ≠ want then Exit.ret (Ctl.returned (some e))
          else Exit.ret Ctl.next) = Exit.ret (Ctl.returned v.err) := by simp [h1]
      simp only [ho]
      refine post_stop (by simp) rfl (by simp [Phase.must, hp2]) ?_
      intro e' he'
      simp [Phase.rejection, hp2] at he'
  · cases hx : (sendrecv env rw c).1 with
    | ret v =>
      have h1 := hv1 v hx
      have ho : (if v.err ≠ none then Exit.ret (Ctl.returned v.err)
          else if v.rcode ≠ want then Exit.ret (Ctl.returned (some e))
          else Exit.ret Ctl.next) = Exit.ret (Ctl.returned v.err) := by simp [h1]
      simp only [ho]
      exact post_stop (by simp) rfl rfl (fun e' he' => by cases he')
    | panic => exact post_stop (by simp) rfl rfl (fun e' he' => by cases he')
    | diverge => exact post_stop (by simp) rfl rfl (fun e' he' => by cases he')


/-- Any command may be written when none has to come next. -/
theorem Free.mayWrite {p : Phase} (h : Free p) (c : Str) : CanWrite c p :=
  ⟨h.1, h.2.1, Or.inl h.2.2⟩

/-- The command that has to come next may be written. -/
theorem Owes.mayWriteOwed {p : Phase} {c : Str} (h : Owes c p) : CanWrite c p :=
  ⟨h.1, h.2.1, Or.inr h.2.2⟩

/-- Only `DATA` and the terminator line make a command come next. -/
theorem must_other (c l : Str) (h1 : c ≠ str "DATA\r\n") (h2 : c ≠ str ".\r\n") :
    (Phase.replied (some c) l).must = none := by
  simp [Phase.must, h1, h2]

/-- An accepted reply to a command other than `DATA` and the terminator line. -/
theorem Free_replied (c l : Str) (want : Int) (h1 : c ≠ str "DATA\r\n")
    (h2 : c ≠ str ".\r\n") (hv : verdict c want = none) (ha : Atoi (l.take 3) = (want, none)) :
    Free (Phase.replied (some c) l) :=
  ⟨⟨_, _, rfl⟩, by simp [Phase.rejection, ha, hv], must_other c l h1 h2⟩

/-- Strings that differ on their first bytes differ. -/
theorem take_ne (c : Str) (n : Nat) (a b : Str) (h : c.take n = a) (hb : b.take n ≠ a) :
    c ≠ b := by
  intro hc; subst hc; exact hb h

/-- The verdict on the command that starts a transaction. -/
theorem verdict_mailCmd (m : Message) (code : Int) :
    verdict (mailCmd m) code =
      if code ≠ 250 then some Error.ErrInvalidFromValue else none := by
  simp [verdict, take_mailCmd]

/-- A recipient command does not start with `MAIL FROM:`. -/
theorem take10_rcptCmd (a : Address) : (rcptCmd a).take 10 ≠ str "MAIL FROM:" := by
  intro h
  have h8 := take_rcptCmd a
  have : ((rcptCmd a).take 10).take 8 = (rcptCmd a).take 8 := by
    rw [List.take_take]; rfl
  rw [h, h8] at this
  revert this
  decide

/-- The verdict on a recipient command. -/
theorem verdict_rcptCmd (a : Address) (code : Int) :
    verdict (rcptCmd a) code =
      if code ≠ 250 then some Error.ErrInvalidToValue else none := by
  simp [verdict, take_rcptCmd, take10_rcptCmd]

/-- The verdict on `DATA`. -/
theorem verdict_DATA (code : Int) :
    verdict (str "DATA\r\n") code =
      if code ≠ 354 then some Error.ErrDataNotAccepted else none := by
  have h1 : ¬ (str "DATA\r\n").take 10 = str "MAIL FROM:" := by decide
  have h2 : ¬ (str "DATA\r\n").take 8 = str "RCPT TO:" := by decide
  simp only [verdict, h1, h2, if_false, if_true]

/-- The verdict on `QUIT`. -/
theorem verdict_QUIT (code : Int) :
    verdict (str "QUIT\r\n") code =
      if code ≠ 221 then some Error.ErrQuitNotAccepted else none := by
  have h1 : ¬ (str "QUIT\r\n").take 10 = str "MAIL FROM:" := by decide
  have h2 : ¬ (str "QUIT\r\n").take 8 = str "RCPT TO:" := by decide
  have h3 : ¬ str "QUIT\r\n" = str "DATA\r\n" := by decide
  simp only [verdict, h1, h2, h3, if_false, if_true]

/-- No code rejects the terminator line. -/
theorem verdict_DOT (code : Int) : verdict (str ".\r\n") code = none := by
  have h1 : ¬ (str ".\r\n").take 10 = str "MAIL FROM:" := by decide
  have h2 : ¬ (str ".\r\n").take 8 = str "RCPT TO:" := by decide
  have h3 : ¬ str ".\r\n" = str "DATA\r\n" := by decide
  have h4 : ¬ str ".\r\n" = str "QUIT\r\n" := by decide
  simp only [verdict, h1, h2, h3, h4, if_false]

/-- A `HELO` command starts with `HELO `. -/
theorem take_fmtHELO (d : Str) : (fmtHELO d).take 5 = str "HELO " := by
  simp [fmtHELO, str]

/-- No code rejects an `EHLO` or a `HELO` as far as `verdict` goes. -/
theorem verdict_take5 (c : Str) (code : Int) (h : c.take 5 = str "EHLO " ∨ c.take 5 = str "HELO ") :
    verdict c code = none := by
  have t5 : ∀ n (q : Str), 5 ≤ n → c.take n = q → c.take 5 = q.take 5 := by
    intro n q hn hq
    rw [← hq, List.take_take, Nat.min_eq_left hn]
  have h1 : ¬ c.take 10 = str "MAIL FROM:" := by
    intro h'; have := t5 10 _ (by omega) h'
    rcases h with h | h <;> (rw [h] at this; revert this; decide)
  have h2 : ¬ c.take 8 = str "RCPT TO:" := by
    intro h'; have := t5 8 _ (by omega) h'
    rcases h with h | h <;> (rw [h] at this; revert this; decide)
  have h3 : ¬ c = str "DATA\r\n" := by
    intro h'; subst h'; rcases h with h | h <;> (revert h; decide)
  have h4 : ¬ c = str "QUIT\r\n" := by
    intro h'; subst h'; rcases h with h | h <;> (revert h; decide)
  simp only [verdict, h1, h2, h3, h4, if_false]

/-- A command told apart from `DATA` and from the terminator line by its first bytes. -/
theorem ne_DATA_DOT (c : Str) (n : Nat) (a : Str) (h : c.take n = a)
    (h1 : (str "DATA\r\n").take n ≠ a) (h2 : (str ".\r\n").take n ≠ a) :
    c ≠ str "DATA\r\n" ∧ c ≠ str ".\r\n" :=
  ⟨take_ne c n a _ h h1, take_ne c n a _ h h2⟩

/-- An exchange whose command is neither `DATA` nor the terminator line, and whose
wanted code and error agree with `verdict`. -/
theorem exchange_tracks_free (env : Env) (rw : readwrite) (c : Str) (want : Int) (e : Error)
    (p : Phase) (hp : CanWrite c p) (h1 : c ≠ str "DATA\r\n") (h2 : c ≠ str ".\r\n")
    (hv : ∀ code, verdict c code = none ∨
      verdict c code = if code ≠ want then some e else none) :
    Tracks Free p rw (exchange env rw c want e) := by
  refine exchange_tracks env rw c want e p Free hp ?_ ?_ (fun l _ => must_other c l h1 h2)
  · intro code e' he'
    rcases hv code with h | h
    · rw [h] at he'; cases he'
    · rw [h] at he'
      by_cases hc : code = want
      · simp [hc] at he'
      · simp only [hc, ne_eq, not_false_eq_true, if_true, Option.some.injEq] at he'
        exact ⟨hc, he'.symm⟩
  · intro l ha
    refine Free_replied c l want h1 h2 ?_ ha
    rcases hv want with h | h
    · exact h
    · simpa using h


/-- A weaker condition on the phase reached. -/
theorem Tracks.weaken {Q R : Phase → Prop} {p : Phase} {rw : readwrite}
    {out : Exit Ctl × readwrite} (h : Tracks Q p rw out) (hQR : ∀ q, Q q → R q) :
    Tracks R p rw out := by
  obtain ⟨es, p', h1, h2, h3, h4⟩ := h
  exact ⟨es, p', h1, h2, fun h => hQR _ (h3 h), h4⟩

/-- A step that does nothing. -/
theorem Tracks.skip {Q : Phase → Prop} {p : Phase} (rw : readwrite) (h : Q p) :
    Tracks Q p rw (Exit.ret Ctl.next, rw) :=
  ⟨[], p, by simp, rfl, post_next rfl h⟩

/-- A step that stops at once on an index out of range. -/
theorem Tracks.panic {Q : Phase → Prop} {p : Phase} (rw : readwrite) (h : Free p) :
    Tracks Q p rw (Exit.panic, rw) := by
  obtain ⟨⟨c0, l0, rfl⟩, h1, h2⟩ := h
  exact ⟨[], _, by simp, rfl, post_stop (by simp) rfl h2 (fun e he => by rw [h1] at he; cases he)⟩

/-- Two steps in sequence. -/
theorem Tracks.seq {Q R : Phase → Prop} {p : Phase} {rw : readwrite}
    {x : Exit Ctl × readwrite} {f : readwrite → Exit Ctl × readwrite}
    (hx : Tracks Q p rw x) (hf : ∀ q a, Q q → Tracks R q a (f a)) :
    Tracks R p rw (andThen x f) := by
  obtain ⟨es1, p1, h1, h2, h3, h4⟩ := hx
  by_cases hn : x.1 = Exit.ret Ctl.next
  · have he : andThen x f = f x.2 := by simp [andThen, hn]
    obtain ⟨es2, p2, g1, g2, g3⟩ := hf p1 x.2 (h3 hn)
    rw [he]
    refine ⟨es1 ++ es2, p2, by rw [g1, h1, List.append_assoc], ?_, g3⟩
    rw [runM_append, h2]; exact g2
  · have he : andThen x f = x := by
      unfold andThen
      split
      · rename_i h; exact absurd h hn
      · rfl
    rw [he]
    exact ⟨es1, p1, h1, h2, fun h => absurd h hn, h4⟩

/-- The terminator step, seen by the monitor: `QUIT` has to come next. -/
theorem dotStep_tracks (env : Env) (rw : readwrite) (p : Phase)
    (hp : CanWrite (str ".\r\n") p) :
    Tracks (Owes (str "QUIT\r\n")) p rw (dotStep env rw) := by
  obtain ⟨es, p', hl, hr, hres⟩ := sendrecv_tracks env rw (str ".\r\n") p hp
  refine ⟨es, p', by rw [dotStep_snd, hl], hr, ?_⟩
  have hfst : (dotStep env rw).1 =
      match (sendrecv env rw (str ".\r\n")).1 with
      | Exit.ret v => if v.err ≠ none then Exit.ret (Ctl.returned v.err) else Exit.ret Ctl.next
      | Exit.panic => Exit.panic
      | Exit.diverge => Exit.diverge := by
    cases hx : (sendrecv env rw (str ".\r\n")).1 with
    | ret v =>
      simp only [dotStep, hx]
      by_cases h1 : v.err = none <;> simp [h1]
    | panic => simp only [dotStep, hx]
    | diverge => simp only [dotStep, hx]
  rw [hfst]
  rcases hres with ⟨l, v, rfl, hv1, hcode, herr⟩ | ⟨rfl, hv1⟩
  · rw [hv1]
    by_cases h1 : v.err = none
    · have hp2 : (Atoi (l.take 3)).2 = none := by rw [← herr, h1]
      refine post_next (by simp [h1]) ⟨⟨_, _, rfl⟩, ?_, ?_⟩
      · simp [Phase.rejection, hp2, verdict_DOT]
      · have hne : ¬ str ".\r\n" = str "DATA\r\n" := by decide
        simp [Phase.must, hp2, hne]
    · have hp2 : ¬ (Atoi (l.take 3)).2 = none := by rw [← herr]; exact h1
      have ho : (if v.err ≠ none then Exit.ret (Ctl.returned v.err) else Exit.ret Ctl.next) =
          Exit.ret (Ctl.returned v.err) := by simp [h1]
      simp only [ho]
      refine post_stop (by simp) rfl (by simp [Phase.must, hp2]) ?_
      intro e' he'
      simp [Phase.rejection, hp2] at he'
  · cases hx : (sendrecv env rw (str ".\r\n")).1 with
    | ret v =>
      have h1 := hv1 v hx
      have ho : (if v.err ≠ none then Exit.ret (Ctl.returned v.err) else Exit.ret Ctl.next) =
          Exit.ret (Ctl.returned v.err) := by simp [h1]
      simp only [ho]
      exact post_stop (by simp) rfl rfl (fun e' he' => by cases he')
    | panic => exact post_stop (by simp) rfl rfl (fun e' he' => by cases he')
    | diverge => exact post_stop (by simp) rfl rfl (fun e' he' => by cases he')

/-- The `DATA` exchange, seen by the monitor: the terminator line has to come next. -/
theorem data_tracks (env : Env) (rw : readwrite) (p : Phase)
    (hp : CanWrite (str "DATA\r\n") p) :
    Tracks (Owes (str ".\r\n")) p rw
      (exchange env rw (str "DATA\r\n") 354 Error.ErrDataNotAccepted) := by
  refine exchange_tracks env rw _ 354 _ p _ hp ?_ ?_ ?_
  · intro code e' he'
    rw [verdict_DATA] at he'
    by_cases hc : code = 354
    · simp [hc] at he'
    · simp only [hc, ne_eq, not_false_eq_true, if_true, Option.some.injEq] at he'
      exact ⟨hc, he'.symm⟩
  · intro l ha
    refine ⟨⟨_, _, rfl⟩, ?_, ?_⟩
    · simp [Phase.rejection, ha, verdict_DATA]
    · simp [Phase.must, ha]
  · intro l hne
    have hd : ¬ str "DATA\r\n" = str ".\r\n" := by decide
    simp [Phase.must, hne, hd]

/-- A `RCPT TO` exchange, seen by the monitor. -/
theorem rcpt_tracks (env : Env) (rw : readwrite) (a : Address) (p : Phase) (hp : Free p) :
    Tracks Free p rw (exchange env rw (rcptCmd a) 250 Error.ErrInvalidToValue) := by
  obtain ⟨h1, h2⟩ := ne_DATA_DOT _ 8 _ (take_rcptCmd a) (by decide) (by decide)
  exact exchange_tracks_free env rw _ 250 _ p (hp.mayWrite _) h1 h2
    (fun code => Or.inr (verdict_rcptCmd a code))

/-- The `MAIL FROM` exchange, seen by the monitor. -/
theorem mail_tracks (env : Env) (rw : readwrite) (m : Message) (p : Phase) (hp : Free p) :
    Tracks Free p rw (exchange env rw (mailCmd m) 250 Error.ErrInvalidFromValue) := by
  obtain ⟨h1, h2⟩ := ne_DATA_DOT _ 10 _ (take_mailCmd m) (by decide) (by decide)
  exact exchange_tracks_free env rw _ 250 _ p (hp.mayWrite _) h1 h2
    (fun code => Or.inr (verdict_mailCmd m code))

/-- The `QUIT` exchange, seen by the monitor. -/
theorem quit_tracks (env : Env) (rw : readwrite) (p : Phase)
    (hp : CanWrite (str "QUIT\r\n") p) :
    Tracks Free p rw (exchange env rw (str "QUIT\r\n") 221 Error.ErrQuitNotAccepted) :=
  exchange_tracks_free env rw _ 221 _ p hp (by decide) (by decide)
    (fun code => Or.inr (verdict_QUIT code))

/-- A recipient loop, seen by the monitor. -/
theorem rcptLoop_tracks (env : Env) (To : List Address) (rem : Nat) :
    ∀ (k : Nat) (rw : readwrite) (p : Phase), Free p →
      Tracks Free p rw (rcptLoop env To rem k rw) := by
  induction rem with
  | zero => intro k rw p hp; exact Tracks.skip rw hp
  | succ rem ih =>
    intro k rw p hp
    rw [rcptLoop]
    split
    · exact Tracks.panic rw hp
    · exact (rcpt_tracks env rw _ p hp).seq (fun q a hq => ih _ a q hq)

/-- The combined branch, seen by the monitor. -/
theorem combined_tracks (env : Env) (m : Message) (rw : readwrite) (p : Phase) (hp : Free p) :
    Tracks (Owes (str "QUIT\r\n")) p rw (combined env m rw) := by
  unfold combined
  refine (rcptLoop_tracks env m.To _ 0 rw p hp).seq (fun q a hq => ?_)
  refine (rcptLoop_tracks env m.To _ 0 a q hq).seq (fun q a hq => ?_)
  refine (data_tracks env a q (hq.mayWrite _)).seq (fun q a hq => ?_)
  exact dotStep_tracks env a q hq.mayWriteOwed

/-- A transaction, seen by the monitor. -/
theorem transaction_tracks (env : Env) (m : Message) (i : Nat) (rw : readwrite) (p : Phase)
    (hp : Free p) : Tracks Free p rw (transaction env m i rw) := by
  unfold transaction
  refine (mail_tracks env rw m p hp).seq (fun q a hq => ?_)
  refine Tracks.seq (Q := CanWrite (str "QUIT\r\n")) ?_
    (fun q a hq => quit_tracks env a q hq)
  split
  · exact (combined_tracks env m a q hq).weaken (fun _ h => h.mayWriteOwed)
  · exact Tracks.skip a (hq.mayWrite _)

/-- The transaction loop, seen by the monitor. -/
theorem txLoop_tracks (env : Env) (m : Message) (rem : Nat) :
    ∀ (i : Nat) (rw : readwrite) (p : Phase), Free p →
      Tracks Free p rw (txLoop env m rem i rw) := by
  induction rem with
  | zero => intro i rw p hp; exact Tracks.skip rw hp
  | succ rem ih =>
    intro i rw p hp
    rw [txLoop]
    exact (transaction_tracks env m i rw p hp).seq (fun q a hq => ih _ a q hq)

/-- Reading the greeting, seen by the monitor. -/
theorem greet_tracks (rw : readwrite) : Tracks Free Phase.opened rw (greet rw) := by
  obtain ⟨es, p', hl, hr, hres⟩ := dorecv_tracks rw Phase.opened none (Or.inl ⟨rfl, rfl⟩)
  have hsnd : (greet rw).2 = (dorecv rw).2 := by
    simp only [greet]
    repeat' split
    all_goals rfl
  refine ⟨es, p', by rw [hsnd, hl], hr, ?_⟩
  have hfree : ∀ l, Free (Phase.replied none l) := fun l => ⟨⟨_, _, rfl⟩, rfl, rfl⟩
  rcases hres with ⟨l, v, rfl, hv1, -, -⟩ | ⟨rfl, hv1⟩
  · by_cases hn : (greet rw).1 = Exit.ret Ctl.next
    · exact post_next hn (hfree l)
    · exact post_stop hn rfl rfl (fun e he => by cases he)
  · by_cases hn : (greet rw).1 = Exit.ret Ctl.next
    · exfalso
      cases hx : (dorecv rw).1 with
      | ret v =>
        have h1 := hv1 v hx
        simp [greet, hx, h1] at hn
      | panic => simp [greet, hx] at hn
      | diverge => simp [greet, hx] at hn
    · exact post_stop hn rfl rfl (fun e he => by cases he)

/-- The introduction, seen by the monitor. -/
theorem negotiate_tracks (env : Env) (m : Message) (rw : readwrite) (p : Phase) (hp : Free p) :
    Tracks Free p rw (negotiate env m rw) := by
  unfold negotiate
  split
  · exact Tracks.panic rw hp
  · rename_i d hd
    have hE5 := take_fmtEHLO d
    have hH5 := take_fmtHELO d
    obtain ⟨hE1, hE2⟩ := ne_DATA_DOT _ 5 _ hE5 (by decide) (by decide)
    obtain ⟨hH1, hH2⟩ := ne_DATA_DOT _ 5 _ hH5 (by decide) (by decide)
    have hfreeE : ∀ l, Free (Phase.replied (some (fmtEHLO d)) l) := by
      intro l
      refine ⟨⟨_, _, rfl⟩, ?_, must_other _ l hE1 hE2⟩
      simp only [Phase.rejection]
      split
      · exact verdict_take5 _ _ (Or.inl hE5)
      · rfl
    obtain ⟨es, p', hl, hr, hres⟩ := sendrecv_tracks env rw (fmtEHLO d) p (hp.mayWrite _)
    simp only []
    rcases hres with ⟨l, v, rfl, hv1, -, -⟩ | ⟨rfl, hv1⟩
    · rw [hv1]
      simp only []
      split
      · exact ⟨es, _, hl, hr, post_stop (by simp) rfl (hfreeE l).2.2
          (fun e he => by rw [(hfreeE l).2.1] at he; cases he)⟩
      · split
        · have hx : Tracks Free p rw (Exit.ret Ctl.next, (sendrecv env rw (fmtEHLO d)).2) :=
            ⟨es, _, hl, hr, post_next rfl (hfreeE l)⟩
          have := hx.seq (f := fun a => exchange env a (fmtHELO d) 250 Error.ErrHeloNotAccepted)
            (fun q a hq => exchange_tracks_free env a _ 250 _ q (hq.mayWrite _) hH1 hH2
              (fun code => Or.inl (verdict_take5 _ code (Or.inr hH5))))
          simpa [andThen] using this
        · exact ⟨es, _, hl, hr, post_next rfl (hfreeE l)⟩
    · cases hx : (sendrecv env rw (fmtEHLO d)).1 with
      | ret v =>
        have h1 := hv1 v hx
        simp only [h1, ne_eq, not_false_eq_true, if_true]
        exact ⟨es, _, hl, hr, post_stop (by simp) rfl rfl (fun e he => by cases he)⟩
      | panic => exact ⟨es, _, hl, hr, post_stop (by simp) rfl rfl (fun e he => by cases he)⟩
      | diverge => exact ⟨es, _, hl, hr, post_stop (by simp) rfl rfl (fun e he => by cases he)⟩

/-- The session, seen by the monitor. -/
theorem session_tracks (env : Env) (m : Message) (rw : readwrite) :
    Tracks Free Phase.opened rw (session env m rw) := by
  unfold session
  refine (greet_tracks rw).seq (fun q a hq => ?_)
  refine (negotiate_tracks env m a q hq).seq (fun q a hq => ?_)
  exact txLoop_tracks env m _ 0 a q hq

/-- Every run of `Send`, seen by the monitor: its log obeys the rules of `stepM`, it
ends with no reply outstanding and no command that has to come next, and when it
ends on a rejection, that rejection's error is what `Send` returns. -/
theorem Send_monitored (env : Env) (m : Message) (host : SMTP) :
    ∃ p, Phase.start.runM (Send env m host).2.log = some p ∧ p.pending = false ∧
      p.must = none ∧
      ∀ e, p.rejection = some e → (Send env m host).1 = Exit.ret (0, some e) := by
  have hidle : ∃ p, Phase.start.runM idle.log = some p ∧ p.pending = false ∧
      p.must = none ∧ ∀ e, p.rejection = some e → False :=
    ⟨Phase.start, rfl, rfl, rfl, fun e he => by cases he⟩
  unfold Send
  split
  · obtain ⟨p, h1, h2, h3, h4⟩ := hidle; exact ⟨p, h1, h2, h3, fun e he => (h4 e he).elim⟩
  split
  · obtain ⟨p, h1, h2, h3, h4⟩ := hidle; exact ⟨p, h1, h2, h3, fun e he => (h4 e he).elim⟩
  split
  · obtain ⟨p, h1, h2, h3, h4⟩ := hidle; exact ⟨p, h1, h2, h3, fun e he => (h4 e he).elim⟩
  split
  · obtain ⟨p, h1, h2, h3, h4⟩ := hidle; exact ⟨p, h1, h2, h3, fun e he => (h4 e he).elim⟩
  split
  · obtain ⟨p, h1, h2, h3, h4⟩ := hidle; exact ⟨p, h1, h2, h3, fun e he => (h4 e he).elim⟩
  unfold connect
  have hdial : Phase.start.stepM (Event.dial host.Host host.Port) = some Phase.opened := rfl
  split
  · exact ⟨Phase.opened, by simp [idle, Phase.runM, hdial], rfl, rfl, fun e he => by cases he⟩
  · obtain ⟨es, p', hl, hr, hnext, hstop⟩ := session_tracks env m (opened env host)
    have hlog : (session env m (opened env host)).2.log =
        Event.dial host.Host host.Port :: es := by rw [hl]; rfl
    simp only []
    split
    · rename_i err hx
      obtain ⟨h1, h2, h3⟩ := hstop (by rw [hx]; simp)
      refine ⟨p', by simp [hlog, Phase.runM, hdial, hr], h1, h2, ?_⟩
      intro e he
      have := h3 e he
      rw [hx] at this
      cases this
      rfl
    · rename_i hx
      obtain ⟨⟨c0, l0, rfl⟩, hrej, hmust⟩ := hnext hx
      refine ⟨Phase.closed, ?_, rfl, rfl, fun e he => by cases he⟩
      have hclose : (Phase.replied c0 l0).stepM Event.close = some Phase.closed := by
        simp [Phase.stepM, hrej, hmust, Phase.step]
      show Phase.start.runM ((session env m (opened env host)).2.log ++ [Event.close]) = _
      rw [hlog, List.cons_append, Phase.runM, hdial]
      simp only []
      rw [runM_append, hr]
      simp [Phase.runM, hclose]
    · rename_i hx
      obtain ⟨h1, h2, h3⟩ := hstop (by rw [hx]; simp)
      refine ⟨p', by simp [hlog, Phase.runM, hdial, hr], h1, h2, ?_⟩
      intro e he
      have := h3 e he
      rw [hx] at this
      cases this
    · rename_i hx
      obtain ⟨h1, h2, h3⟩ := hstop (by rw [hx]; simp)
      refine ⟨p', by simp [hlog, Phase.runM, hdial, hr], h1, h2, ?_⟩
      intro e he
      have := h3 e he
      rw [hx] at this
      cases this

/-- A point of a run of `Send`: what the monitor says of the calls that follow it. -/
theorem monitor_at (env : Env) (m : Message) (host : SMTP) (pre post : List Event) (q : Phase)
    (hlog : (Send env m host).2.log = pre ++ post) (hrun : Phase.start.run pre = some q) :
    ∃ pf, q.runM post = some pf ∧ pf.pending = false ∧ pf.must = none ∧
      ∀ e, pf.rejection = some e → (Send env m host).1 = Exit.ret (0, some e) := by
  obtain ⟨pf, h1, h2, h3, h4⟩ := Send_monitored env m host
  rw [hlog, runM_append] at h1
  cases hq : Phase.start.runM pre with
  | none => rw [hq] at h1; cases h1
  | some q' =>
    rw [hq] at h1
    have := runM_run pre _ _ hq
    rw [hrun] at this
    cases this
    exact ⟨pf, h1, h2, h3, h4⟩

/-- Nothing follows a reply that rejects its command, and its error is returned. -/
theorem rejection_stops (env : Env) (m : Message) (host : SMTP) (pre post : List Event)
    (q : Phase) (e : Error) (hlog : (Send env m host).2.log = pre ++ post)
    (hrun : Phase.start.run pre = some q) (hrej : q.rejection = some e) :
    post = [] ∧ (Send env m host).1 = Exit.ret (0, some e) := by
  obtain ⟨pf, h1, -, -, h4⟩ := monitor_at env m host pre post q hlog hrun
  cases post with
  | nil =>
    simp only [Phase.runM, Option.some.injEq] at h1
    subst h1
    exact ⟨rfl, h4 e hrej⟩
  | cons ev rest =>
    simp [Phase.runM, Phase.stepM, hrej] at h1

/-- The command that has to come next is written and flushed, and a read follows. -/
theorem must_follows (env : Env) (m : Message) (host : SMTP) (pre post : List Event)
    (q : Phase) (c : Str) (hlog : (Send env m host).2.log = pre ++ post)
    (hrun : Phase.start.run pre = some q) (hmust : q.must = some c)
    (hrej : q.rejection = none) :
    ∃ b rest, post = Event.write c :: Event.flush :: Event.read b :: rest := by
  obtain ⟨pf, h1, h2, h3, -⟩ := monitor_at env m host pre post q hlog hrun
  cases post with
  | nil =>
    simp only [Phase.runM, Option.some.injEq] at h1
    subst h1
    rw [hmust] at h3; cases h3
  | cons ev rest =>
    simp only [Phase.runM, Phase.stepM, hrej, hmust] at h1
    by_cases hev : ev = Event.write c
    · subst hev
      simp only [if_true] at h1
      cases hq : q.step (Event.write c) with
      | none => rw [hq] at h1; cases h1
      | some q1 =>
        rw [hq] at h1
        have hq1 : q1 = Phase.written c := by
          cases q <;> simp [Phase.step] at hq
          exact hq.symm
        subst hq1
        cases rest with
        | nil =>
          simp only [Phase.runM, Option.some.injEq] at h1
          subst h1; cases h2
        | cons ev2 rest2 =>
          cases ev2 <;> simp [Phase.runM, Phase.stepM, Phase.rejection, Phase.must, Phase.step] at h1
          cases rest2 with
          | nil =>
            simp only [Phase.runM, Option.some.injEq] at h1
            subst h1; cases h2
          | cons ev3 rest3 =>
            cases ev3 <;>
              simp [Phase.runM, Phase.stepM, Phase.rejection, Phase.must, Phase.step] at h1
            exact ⟨_, _, rfl⟩
    · simp [hev] at h1


/-- A sequence of two steps that end ends. -/
theorem andThen_total (x : Exit Ctl × readwrite) (f : readwrite → Exit Ctl × readwrite)
    (hx : x.1 ≠ Exit.diverge) (hf : ∀ a, (f a).1 ≠ Exit.diverge) :
    (andThen x f).1 ≠ Exit.diverge := by
  unfold andThen
  split
  · exact hf _
  · exact hx

/-- The function `sendrecv` always ends. -/
theorem sendrecv_total (env : Env) (rw : readwrite) (c : Str) :
    (sendrecv env rw c).1 ≠ Exit.diverge := by
  rw [sendrecv_eq]; exact dorecv_total _

/-- An exchange always ends. -/
theorem exchange_total (env : Env) (rw : readwrite) (c : Str) (want : Int) (e : Error) :
    (exchange env rw c want e).1 ≠ Exit.diverge := by
  rw [exchange_fst]
  have := sendrecv_total env rw c
  cases hx : (sendrecv env rw c).1 with
  | ret v => simp only []; split <;> [simp; (split <;> simp)]
  | panic => simp
  | diverge => exact absurd hx this

/-- A recipient loop always ends. -/
theorem rcptLoop_total (env : Env) (To : List Address) (rem : Nat) :
    ∀ (k : Nat) (rw : readwrite), (rcptLoop env To rem k rw).1 ≠ Exit.diverge := by
  induction rem with
  | zero => intro k rw; simp [rcptLoop]
  | succ rem ih =>
    intro k rw
    rw [rcptLoop]
    split
    · simp
    · exact andThen_total _ _ (exchange_total _ _ _ _ _) (fun a => ih _ a)

/-- The terminator step always ends. -/
theorem dotStep_total (env : Env) (rw : readwrite) : (dotStep env rw).1 ≠ Exit.diverge := by
  have := sendrecv_total env rw (str ".\r\n")
  simp only [dotStep]
  cases hx : (sendrecv env rw (str ".\r\n")).1 with
  | ret v => simp only []; split <;> simp
  | panic => simp
  | diverge => exact absurd hx this

/-- The transaction loop always ends. -/
theorem txLoop_total (env : Env) (m : Message) (rem : Nat) :
    ∀ (i : Nat) (rw : readwrite), (txLoop env m rem i rw).1 ≠ Exit.diverge := by
  induction rem with
  | zero => intro i rw; simp [txLoop]
  | succ rem ih =>
    intro i rw
    rw [txLoop]
    refine andThen_total _ _ ?_ (fun a => ih _ a)
    unfold transaction
    refine andThen_total _ _ (exchange_total _ _ _ _ _) (fun a => ?_)
    refine andThen_total _ _ ?_ (fun a => exchange_total _ _ _ _ _)
    split
    · unfold combined
      refine andThen_total _ _ (rcptLoop_total _ _ _ _ _) (fun a => ?_)
      refine andThen_total _ _ (rcptLoop_total _ _ _ _ _) (fun a => ?_)
      exact andThen_total _ _ (exchange_total _ _ _ _ _) (fun a => dotStep_total _ _)
    · simp

/-- Every run of `Send` ends: the model never runs out of fuel. -/
theorem Send_total (env : Env) (m : Message) (host : SMTP) :
    (Send env m host).1 ≠ Exit.diverge := by
  have hs : (session env m (opened env host)).1 ≠ Exit.diverge := by
    unfold session
    refine andThen_total _ _ ?_ (fun a => andThen_total _ _ ?_ (fun a => txLoop_total _ _ _ _ _))
    · have := dorecv_total (opened env host)
      simp only [greet]
      cases hx : (dorecv (opened env host)).1 with
      | ret v => simp only []; split <;> [simp; (split <;> simp)]
      | panic => simp
      | diverge => exact absurd hx this
    · unfold negotiate
      split
      · simp
      · rename_i d _
        have := sendrecv_total env a (fmtEHLO d)
        simp only []
        cases hx : (sendrecv env a (fmtEHLO d)).1 with
        | ret v =>
          simp only []
          split
          · simp
          · split
            · exact exchange_total _ _ _ _ _
            · simp
        | panic => simp
        | diverge => exact absurd hx this
  unfold Send
  repeat' split
  any_goals simp
  unfold connect
  split
  · simp
  · simp only []
    split
    · simp
    · simp
    · simp
    · rename_i hx; exact absurd hx hs

/-- C13: in every run of `Send`, for every message, server target and server, the log
keeps lock-step. After the dial come the reads of the greeting; from then on each
command written is flushed at once and followed by the reads of one reply (lines
up to the first final line, or up to the line on which the read fails) before
anything else is written; and the run does not end on a command whose reply has not
been read. The run always ends. -/
theorem send_lockstep (env : Env) (m : Message) (host : SMTP) :
    (Send env m host).1 ≠ Exit.diverge ∧
    ∃ p, Phase.start.run (Send env m host).2.log = some p ∧ p.pending = false := by
  obtain ⟨p, h1, h2, -, -⟩ := Send_monitored env m host
  exact ⟨Send_total env m host, p, runM_run _ _ _ h1, h2⟩

/-- C11: at any point of any run of `Send` where the reply to a command is complete
and its final line parses to a code, if the command is a `MAIL FROM` and the code is
not 250, or a `RCPT TO` and the code is not 250, or `DATA` and the code is not 354, or
`QUIT` and the code is not 221, then nothing follows in the log (the rejected command
is the last one written) and `Send` returns `ErrInvalidFromValue`,
`ErrInvalidToValue`, `ErrDataNotAccepted`, `ErrQuitNotAccepted` respectively. -/
theorem send_rejected_command (env : Env) (m : Message) (host : SMTP) (pre post : List Event)
    (c l : Str) (hlog : (Send env m host).2.log = pre ++ post)
    (hrun : Phase.start.run pre = some (Phase.replied (some c) l))
    (hparse : (Atoi (l.take 3)).2 = none) :
    (c.take 10 = str "MAIL FROM:" → (Atoi (l.take 3)).1 ≠ 250 →
      post = [] ∧ (Send env m host).1 = Exit.ret (0, some Error.ErrInvalidFromValue)) ∧
    (c.take 8 = str "RCPT TO:" → (Atoi (l.take 3)).1 ≠ 250 →
      post = [] ∧ (Send env m host).1 = Exit.ret (0, some Error.ErrInvalidToValue)) ∧
    (c = str "DATA\r\n" → (Atoi (l.take 3)).1 ≠ 354 →
      post = [] ∧ (Send env m host).1 = Exit.ret (0, some Error.ErrDataNotAccepted)) ∧
    (c = str "QUIT\r\n" → (Atoi (l.take 3)).1 ≠ 221 →
      post = [] ∧ (Send env m host).1 = Exit.ret (0, some Error.ErrQuitNotAccepted)) := by
  have key : ∀ e, verdict c (Atoi (l.take 3)).1 = some e →
      post = [] ∧ (Send env m host).1 = Exit.ret (0, some e) := fun e he =>
    rejection_stops env m host pre post _ e hlog hrun (by simp [Phase.rejection, hparse, he])
  refine ⟨?_, ?_, ?_, ?_⟩
  · intro hc hne
    exact key _ (by simp [verdict, hc, hne])
  · intro hc hne
    have h10 : ¬ c.take 10 = str "MAIL FROM:" := by
      intro h
      have : (c.take 10).take 8 = c.take 8 := by rw [List.take_take]; rfl
      rw [h, hc] at this
      revert this; decide
    exact key _ (by simp [verdict, h10, hc, hne])
  · intro hc hne
    subst hc
    exact key _ (by rw [verdict_DATA]; simp [hne])
  · intro hc hne
    subst hc
    exact key _ (by rw [verdict_QUIT]; simp [hne])

/-- C16: at any point of any run of `Send` where `DATA` has been answered with 354, what
follows is the write of the single line `.\r\n`, its flush and a read; and at any
point where the reply to that line is complete and parses, whatever its code, what
follows is the write of `QUIT`, its flush and a read. Nothing of `m.Body` and no
header is written between `DATA` and `QUIT`, and no error is returned there. -/
theorem send_data_phase (env : Env) (m : Message) (host : SMTP) (pre post : List Event)
    (l : Str) (hlog : (Send env m host).2.log = pre ++ post) :
    (Phase.start.run pre = some (Phase.replied (some (str "DATA\r\n")) l) →
      Atoi (l.take 3) = (354, none) →
      ∃ b rest, post = Event.write (str ".\r\n") :: Event.flush :: Event.read b :: rest) ∧
    (Phase.start.run pre = some (Phase.replied (some (str ".\r\n")) l) →
      (Atoi (l.take 3)).2 = none →
      ∃ b rest, post = Event.write (str "QUIT\r\n") :: Event.flush :: Event.read b :: rest) := by
  constructor
  · intro hrun ha
    refine must_follows env m host pre post _ _ hlog hrun ?_ ?_
    · simp [Phase.must, ha]
    · simp [Phase.rejection, ha, verdict_DATA]
  · intro hrun ha
    refine must_follows env m host pre post _ _ hlog hrun ?_ ?_
    · have hne : ¬ str ".\r\n" = str "DATA\r\n" := by decide
      simp [Phase.must, ha, hne]
    · simp [Phase.rejection, ha, verdict_DOT]

/-- C11 at the package's test message and a server that rejects `RCPT TO` with 550. -/
theorem send_rejected_command_witness :
    Phase.start.run (Send rcptRejectEnv testMsg tpg).2.log =
      some (Phase.replied (some (rcptCmd bla)) (str "550 no such user\r\n")) ∧
    (Atoi ((str "550 no such user\r\n").take 3)) = (550, none) ∧
    ([] : List Event) = [] ∧
    (Send rcptRejectEnv testMsg tpg).1 = Exit.ret (0, some Error.ErrInvalidToValue) :=
  ⟨by decide, by decide,
   (send_rejected_command rcptRejectEnv testMsg tpg (Send rcptRejectEnv testMsg tpg).2.log []
      (rcptCmd bla) (str "550 no such user\r\n") (by simp) (by decide) (by decide)).2.1
      (by decide) (by decide)⟩

/-- C16 at the package's test message and a server that answers the terminator line
with 554: `QUIT` follows all the same. -/
theorem send_data_phase_witness :
    Phase.start.run ((Send dotRejectEnv testMsg tpg).2.log.take 17) =
      some (Phase.replied (some (str ".\r\n")) (str "554 transaction failed\r\n")) ∧
    ∃ b rest, (Send dotRejectEnv testMsg tpg).2.log.drop 17 =
      Event.write (str "QUIT\r\n") :: Event.flush :: Event.read b :: rest :=
  ⟨by decide,
   (send_data_phase dotRejectEnv testMsg tpg ((Send dotRejectEnv testMsg tpg).2.log.take 17)
      ((Send dotRejectEnv testMsg tpg).2.log.drop 17) (str "554 transaction failed\r\n")
      (List.take_append_drop 17 _).symm).2 (by decide) (by decide)⟩


/-- C12 (code_bug): on a connection where every `WriteString` and every `Flush` fails,
`sendrecv` of `QUIT` does not return that failure: `dosend` reports no error, a read
is made all the same, and the error returned is the end of input met by that read. -/
theorem sendrecv_ignores_write_failure :
    brokenEnv.ioerr 0 = some (Error.transport 1) ∧
    brokenEnv.ioerr 1 = some (Error.transport 1) ∧
    (dosend brokenEnv idle (str "QUIT\r\n")).1 = none ∧
    sendrecv brokenEnv idle (str "QUIT\r\n") =
      (Exit.ret { rcode := 0, rtext := none, err := some Error.EOF, store := [] },
       { r := [], w := [], nsent := 0,
         log := [Event.write (str "QUIT\r\n"), Event.flush, Event.read []] }) := by
  decide

/-- A first line shorter than 4 bytes stops `dorecv` on the slice `buf[4:]`. -/
theorem dorecv_short_first_line (rw : readwrite) (l rest : Str) (hl : IsLine l)
    (hlen : l.length < 4) (hr : rw.r = l ++ rest) : (dorecv rw).1 = Exit.panic := by
  unfold dorecv
  rw [dorecvLoop_zero, ReadString_line rw l rest hl hr]
  simp [hlen]

/-- C14 (code_bug): on the line `ok\n`, which has 3 bytes, `dorecv` does not return an
error: the run stops on the slice `buf[4:]`, out of range. -/
theorem dorecv_short_line_panics :
    IsLine (str "ok\n") ∧ (str "ok\n").length < 4 ∧
    (dorecv shortLine).1 = Exit.panic ∧
    (dorecv shortLine).2.log = [Event.read (str "ok\n")] := by
  decide

/-- C15 (code_bug): the package's test message sent to a server that greets with
`421 busy`. The connection is dialled, `Send` returns `ErrNotReady`, and the
connection is not closed. -/
theorem send_not_ready_leaves_open :
    Valid testMsg tpg ∧
    Event.dial tpg.Host tpg.Port ∈ (Send busyEnv testMsg tpg).2.log ∧
    (Send busyEnv testMsg tpg).1 = Exit.ret (0, some Error.ErrNotReady) ∧
    Event.close ∉ (Send busyEnv testMsg tpg).2.log := by
  decide

/-- The list that starts at a node whose `next` is nil has one text. -/
theorem texts_single (t : Str) (n : Nat) :
    listTexts (⟨t, none⟩ :: List.replicate n blank) (some 0) = [t] := by
  simp only [listTexts, texts, List.getElem?_cons_zero, List.length_cons]

/-- C20: for every reply (continuation lines, then a final line), whatever the number
of continuation lines, the list that `dorecv` returns has exactly one node: `rtext`
points to a node whose `next` is nil and whose text is the final line from index 4
onward, line terminator included. -/
theorem dorecv_single_node (rw : readwrite) (conts : List Str) (fin rest : Str)
    (hc : ∀ l ∈ conts, IsCont l) (hf : IsFinal fin) (hr : rw.r = cat conts ++ fin ++ rest) :
    ∃ v p, (dorecv rw).1 = Exit.ret v ∧ v.rtext = some p ∧
      v.store[p]? = some { text := fin.drop 4, next := none } ∧
      listTexts v.store v.rtext = [fin.drop 4] := by
  rw [dorecv_reply rw conts fin rest hc hf hr]
  exact ⟨_, 0, rfl, rfl, by simp, texts_single _ _⟩

/-- C20 at the reply of three lines. -/
theorem dorecv_single_node_witness :
    (∀ l ∈ [str "250-first\r\n", str "250-second\r\n"], IsCont l) ∧
    IsFinal (str "250 third\r\n") ∧
    ∃ v p, (dorecv threeLines).1 = Exit.ret v ∧ v.rtext = some p ∧
      v.store[p]? = some { text := (str "250 third\r\n").drop 4, next := none } ∧
      listTexts v.store v.rtext = [(str "250 third\r\n").drop 4] :=
  ⟨by decide, by decide,
   dorecv_single_node threeLines [str "250-first\r\n", str "250-second\r\n"]
     (str "250 third\r\n") [] (by decide) (by decide) (by decide)⟩

/-- The first five bytes of a transaction command are neither `EHLO ` nor `HELO `,
and a transaction command that starts with `RCPT TO:` is the command of a To entry. -/
theorem TxCmd_shape (m : Message) (c : Str) (h : TxCmd m c) :
    c.take 5 ≠ str "EHLO " ∧ c.take 5 ≠ str "HELO " ∧
    (c.take 8 = str "RCPT TO:" → ∃ a ∈ m.To, c = rcptCmd a) := by
  have t5 : ∀ (x : Str) n (q : Str), 5 ≤ n → x.take n = q → x.take 5 = q.take 5 := by
    intro x n q hn hq
    rw [← hq, List.take_take, Nat.min_eq_left hn]
  have t8 : ∀ (x : Str) n (q : Str), 8 ≤ n → x.take n = q → x.take 8 = q.take 8 := by
    intro x n q hn hq
    rw [← hq, List.take_take, Nat.min_eq_left hn]
  rcases h with h | ⟨a, ha, h⟩ | h | h | h
  · subst h
    have h5 := t5 _ 10 _ (by omega) (take_mailCmd m)
    have h8 := t8 _ 10 _ (by omega) (take_mailCmd m)
    refine ⟨?_, ?_, ?_⟩
    · rw [h5]; decide
    · rw [h5]; decide
    · intro h; rw [h8] at h; exact absurd h (by decide)
  · subst h
    have h5 := t5 _ 8 _ (by omega) (take_rcptCmd a)
    refine ⟨?_, ?_, fun _ => ⟨a, ha, rfl⟩⟩
    · rw [h5]; decide
    · rw [h5]; decide
  · subst h; exact ⟨by decide, by decide, fun h => absurd h (by decide)⟩
  · subst h; exact ⟨by decide, by decide, fun h => absurd h (by decide)⟩
  · subst h; exact ⟨by decide, by decide, fun h => absurd h (by decide)⟩

/-- Every command that `Send` writes is a command of a session for the message. -/
theorem Send_writes (env : Env) (m : Message) (host : SMTP) :
    ∀ c ∈ writes (Send env m host).2.log, SessCmd m c := by
  intro c hc
  by_cases hv : Valid m host
  · rw [Send_valid env m host hv] at hc
    cases hd : env.Dial with
    | some e =>
      simp [connect, hd, idle, writes] at hc
    | none =>
      rw [connect_writes env m host hd] at hc
      obtain ⟨es, hl, hP⟩ := Grows_session env m (opened env host)
      rw [hl, writes_append] at hc
      simp only [opened, writes, List.nil_append] at hc
      exact hP c hc
  · rw [Send_invalid_log env m host hv] at hc
    simp [writes] at hc

/-- C17: for a valid message the From address is some `a`, then `@`, then `d`, with no
`@` in `a`; element 1 of the split of the address is in range and is `d`; and every
`EHLO` command that `Send` writes is `EHLO `, then `d`, then CRLF, every `HELO`
command `HELO `, then `d`, then CRLF. -/
theorem send_domain (env : Env) (m : Message) (host : SMTP) (hv : Valid m host) :
    ∃ a d, m.From.Email = a ++ '@' :: d ∧ '@' ∉ a ∧
      (Split m.From.Email '@' 2)[1]? = some d ∧
      ∀ c ∈ writes (Send env m host).2.log,
        (c.take 5 = str "EHLO " → c = str "EHLO " ++ d ++ str "\r\n") ∧
        (c.take 5 = str "HELO " → c = str "HELO " ++ d ++ str "\r\n") := by
  have hm : '@' ∈ m.From.Email := List.count_pos_iff.1 (by have := hv.1; omega)
  obtain ⟨a, d, h1, h2, h3⟩ := splitAtMost_one '@' m.From.Email hm
  have hdom : domain m = d := by simp [domain, Split, h1]
  refine ⟨a, d, h2, h3, by simp [Split, h1], ?_⟩
  intro c hc
  rcases Send_writes env m host c hc with h | h | h
  · subst h
    rw [hdom]
    refine ⟨fun _ => rfl, fun h => ?_⟩
    rw [take_fmtEHLO] at h; exact absurd h (by decide)
  · subst h
    rw [hdom]
    refine ⟨fun h => ?_, fun _ => rfl⟩
    rw [take_fmtHELO] at h; exact absurd h (by decide)
  · obtain ⟨g1, g2, -⟩ := TxCmd_shape m c h
    exact ⟨fun h => absurd h g1, fun h => absurd h g2⟩

/-- C17 at the package's test message: the domain is `tpg.com.au`. -/
theorem send_domain_witness :
    Valid testMsg tpg ∧
    ∃ a d, testMsg.From.Email = a ++ '@' :: d ∧ '@' ∉ a ∧
      (Split testMsg.From.Email '@' 2)[1]? = some d ∧
      ∀ c ∈ writes (Send heloEnv testMsg tpg).2.log,
        (c.take 5 = str "EHLO " → c = str "EHLO " ++ d ++ str "\r\n") ∧
        (c.take 5 = str "HELO " → c = str "HELO " ++ d ++ str "\r\n") :=
  ⟨by decide, send_domain heloEnv testMsg tpg (by decide)⟩

/-- C19: replacing the BCC entries of a message by as many other entries changes
neither the result of `Send` nor anything in its log, for every server; and every
`RCPT TO` command that `Send` writes is the command of an entry of `m.To`. -/
theorem send_bcc_blind (env : Env) (m : Message) (host : SMTP) (bcc : List Address)
    (hlen : bcc.length = m.BCC.length) :
    Send env (m.withBCC bcc) host = Send env m host ∧
    ∀ c ∈ writes (Send env m host).2.log, c.take 8 = str "RCPT TO:" →
      ∃ a ∈ m.To, c = rcptCmd a := by
  constructor
  · have htx : ∀ i rw, transaction env (m.withBCC bcc) i rw = transaction env m i rw := by
      intro i rw
      simp only [transaction, combined, mailCmd, Message.withBCC, hlen]
    have hloop : ∀ rem i rw, txLoop env (m.withBCC bcc) rem i rw = txLoop env m rem i rw := by
      intro rem
      induction rem with
      | zero => intro i rw; rfl
      | succ rem ih =>
        intro i rw
        simp only [txLoop, htx, ih]
    have hsess : ∀ rw, session env (m.withBCC bcc) rw = session env m rw := by
      intro rw
      have hb : (m.withBCC bcc).BCC.length = m.BCC.length := hlen
      have hf : (m.withBCC bcc).From = m.From := rfl
      simp only [session, negotiate, hloop, hb, hf]
    have h1 : (m.withBCC bcc).From = m.From := rfl
    have h2 : (m.withBCC bcc).To = m.To := rfl
    have h3 : (m.withBCC bcc).Body = m.Body := rfl
    simp only [Send, connect, hsess, h1, h2, h3]
  · intro c hc h8
    rcases Send_writes env m host c hc with h | h | h
    · subst h
      have : ((fmtEHLO (domain m)).take 8).take 5 = (fmtEHLO (domain m)).take 5 := by
        rw [List.take_take]; rfl
      rw [h8, take_fmtEHLO] at this
      exact absurd this (by decide)
    · subst h
      have : ((fmtHELO (domain m)).take 8).take 5 = (fmtHELO (domain m)).take 5 := by
        rw [List.take_take]; rfl
      rw [h8, take_fmtHELO] at this
      exact absurd this (by decide)
    · exact (TxCmd_shape m c h).2.2 h8

/-- C19 at the test message with the BCC entry `carol` replaced by `dave`. -/
theorem send_bcc_blind_witness :
    [dave].length = bccMsg.BCC.length ∧
    Send okEnv (bccMsg.withBCC [dave]) tpg = Send okEnv bccMsg tpg ∧
    ∀ c ∈ writes (Send okEnv bccMsg tpg).2.log, c.take 8 = str "RCPT TO:" →
      ∃ a ∈ bccMsg.To, c = rcptCmd a :=
  ⟨rfl, send_bcc_blind okEnv bccMsg tpg [dave] rfl⟩

/-- A recipient loop that runs past the end of `To`, on an accepting server: one
recipient command for each entry left, then the index is out of range. -/
theorem rcptLoop_overrun (env : Env) (To : List Address) (hh : Healthy env) (ha : Accepts env)
    (rem : Nat) :
    ∀ (k : Nat) (rw : readwrite), Quiet rw → k ≤ To.length → To.length < k + rem →
      ∃ rw', rcptLoop env To rem k rw = (Exit.panic, rw') ∧
        writes rw'.log = writes rw.log ++ (To.drop k).map rcptCmd := by
  induction rem with
  | zero => intro k rw _ h1 h2; omega
  | succ rem ih =>
    intro k rw hq h1 h2
    by_cases hlt : k < To.length
    · obtain ⟨cs, f, g1, g2, g3, g4, -, -, g7⟩ := ha rw.nsent (rcptCmd To[k])
      obtain ⟨rw1, e1, q1, w1⟩ := exchange_accept env rw (rcptCmd To[k]) 250
        Error.ErrInvalidToValue hh hq
        ⟨cs, f, g1, g2, g3, g4, g7 (Or.inr (Or.inr (take_rcptCmd _)))⟩
      obtain ⟨rw2, e2, w2⟩ := ih (k + 1) rw1 q1 (by omega) (by omega)
      refine ⟨rw2, ?_, ?_⟩
      · rw [rcptLoop, List.getElem?_eq_getElem hlt]
        simp only [andThen, e1, e2]
      · rw [w2, w1, List.drop_eq_getElem_cons hlt, List.map_cons, List.append_assoc]
        rfl
    · have hk : k = To.length := by omega
      refine ⟨rw, ?_, ?_⟩
      · rw [rcptLoop, List.getElem?_eq_none (by omega)]
      · simp [hk]

/-- The combined branch on an accepting server when `m.CC` is longer than `m.To`: the
second recipient loop runs out of range, before `DATA`. -/
theorem combined_overrun (env : Env) (m : Message) (rw : readwrite) (hh : Healthy env)
    (ha : Accepts env) (hq : Quiet rw) (hcc : m.To.length < m.CC.length) :
    ∃ rw', combined env m rw = (Exit.panic, rw') ∧
      writes rw'.log = writes rw.log ++ (m.To.map rcptCmd ++ m.To.map rcptCmd) := by
  obtain ⟨rw1, e1, q1, w1⟩ := rcptLoop_accept env m.To hh ha m.To.length 0 rw hq (by omega)
  obtain ⟨rw2, e2, w2⟩ := rcptLoop_overrun env m.To hh ha m.CC.length 0 rw1 q1 (by omega)
    (by omega)
  refine ⟨rw2, ?_, ?_⟩
  · simp only [combined, andThen, e1, e2]
  · rw [w2, w1]; simp

/-- A transaction that is not the combined one, on an accepting server. -/
theorem transaction_bcc (env : Env) (m : Message) (i : Nat) (rw : readwrite)
    (hh : Healthy env) (ha : Accepts env) (hq : Quiet rw) (hi : i < m.BCC.length) :
    ∃ rw', transaction env m i rw = (Exit.ret Ctl.next, rw') ∧ Quiet rw' ∧
      writes rw'.log = writes rw.log ++ [mailCmd m, str "QUIT\r\n"] := by
  obtain ⟨cs, f, h1, h2, h3, h4, -, -, h7⟩ := ha rw.nsent (mailCmd m)
  obtain ⟨rw1, e1, q1, w1⟩ := exchange_accept env rw (mailCmd m) 250
    Error.ErrInvalidFromValue hh hq
    ⟨cs, f, h1, h2, h3, h4, h7 (Or.inr (Or.inl (take_mailCmd m)))⟩
  obtain ⟨cs, f, h1, h2, h3, h4, -, h6, -⟩ := ha rw1.nsent (str "QUIT\r\n")
  obtain ⟨rw3, e3, q3, w3⟩ := exchange_accept env rw1 (str "QUIT\r\n") 221
    Error.ErrQuitNotAccepted hh q1 ⟨cs, f, h1, h2, h3, h4, h6 rfl⟩
  have hi' : ¬ i ≥ m.BCC.length := by omega
  refine ⟨rw3, ?_, q3, ?_⟩
  · simp only [transaction, andThen, e1, hi', if_false, e3]
  · rw [w3, w1]; simp

/-- The combined transaction on an accepting server when `m.CC` is longer than `m.To`. -/
theorem transaction_overrun (env : Env) (m : Message) (i : Nat) (rw : readwrite)
    (hh : Healthy env) (ha : Accepts env) (hq : Quiet rw) (hi : i ≥ m.BCC.length)
    (hcc : m.To.length < m.CC.length) :
    ∃ rw', transaction env m i rw = (Exit.panic, rw') ∧
      writes rw'.log = writes rw.log ++
        mailCmd m :: (m.To.map rcptCmd ++ m.To.map rcptCmd) := by
  obtain ⟨cs, f, h1, h2, h3, h4, -, -, h7⟩ := ha rw.nsent (mailCmd m)
  obtain ⟨rw1, e1, q1, w1⟩ := exchange_accept env rw (mailCmd m) 250
    Error.ErrInvalidFromValue hh hq
    ⟨cs, f, h1, h2, h3, h4, h7 (Or.inr (Or.inl (take_mailCmd m)))⟩
  obtain ⟨rw2, e2, w2⟩ := combined_overrun env m rw1 hh ha q1 hcc
  refine ⟨rw2, ?_, ?_⟩
  · simp only [transaction, andThen, e1, hi, if_true, e2]
  · rw [w2, w1]; simp

/-- The transaction loop on an accepting server when `m.CC` is longer than `m.To`. -/
theorem txLoop_overrun (env : Env) (m : Message) (hh : Healthy env) (ha : Accepts env)
    (hcc : m.To.length < m.CC.length) (rem : Nat) :
    ∀ (i : Nat) (rw : readwrite), Quiet rw → i + rem = m.BCC.length →
      ∃ rw', txLoop env m (rem + 1) i rw = (Exit.panic, rw') ∧
        writes rw'.log = writes rw.log ++
          (bccWrites m rem ++ mailCmd m :: (m.To.map rcptCmd ++ m.To.map rcptCmd)) := by
  induction rem with
  | zero =>
    intro i rw hq hi
    obtain ⟨rw1, e1, w1⟩ := transaction_overrun env m i rw hh ha hq (by omega) hcc
    refine ⟨rw1, ?_, ?_⟩
    · simp only [txLoop, andThen, e1]
    · rw [w1]; simp [bccWrites]
  | succ rem ih =>
    intro i rw hq hi
    obtain ⟨rw1, e1, q1, w1⟩ := transaction_bcc env m i rw hh ha hq (by omega)
    obtain ⟨rw2, e2, w2⟩ := ih (i + 1) rw1 q1 (by omega)
    refine ⟨rw2, ?_, ?_⟩
    · rw [txLoop]
      simp only [andThen, e1, e2]
    · rw [w2, w1]; simp [bccWrites]

/-- The commands of the transactions that are not the combined one. -/
theorem mem_bccWrites (m : Message) (n : Nat) (c : Str) (h : c ∈ bccWrites m n) :
    c = mailCmd m ∨ c = str "QUIT\r\n" := by
  induction n with
  | zero => simp [bccWrites] at h
  | succ n ih =>
    simp only [bccWrites, List.mem_cons] at h
    rcases h with h | h | h
    · exact Or.inl h
    · exact Or.inr h
    · exact ih h

/-- C18: for a valid message on a sound connection to a server that accepts every
command, the second recipient loop reads `m.To[k]` for `k` from 0 to
`len(m.CC) - 1`; these indices are all in range exactly when
`len(m.CC) <= len(m.To)`; `Send` stops on an index out of range exactly when
`len(m.To) < len(m.CC)`, and it writes `DATA` exactly when `len(m.CC) <= len(m.To)`. -/
theorem send_cc_index (env : Env) (m : Message) (host : SMTP) (gc : List Str) (gf : Str)
    (hv : Valid m host) (hd : env.Dial = none) (hh : Healthy env)
    (hgc : ∀ l ∈ gc, IsCont l) (hgf : IsFinal gf) (hg : env.greeting = cat gc ++ gf)
    (hg220 : Atoi (gf.take 3) = (220, none)) (ha : Accepts env) :
    ((∀ k, k < m.CC.length → (m.To[k]?).isSome = true) ↔ m.CC.length ≤ m.To.length) ∧
    ((Send env m host).1 = Exit.panic ↔ m.To.length < m.CC.length) ∧
    (str "DATA\r\n" ∈ writes (Send env m host).2.log ↔ m.CC.length ≤ m.To.length) := by
  have hgr := greet_opened env host gc gf hgc hgf hg (by rw [hg220])
  simp only [hg220, ne_eq, not_true_eq_false, if_false] at hgr
  obtain ⟨cs, f, h1, h2, h3, h4, -, -, h7⟩ := ha 0 (fmtEHLO (domain m))
  have hneg := negotiate_healthy env m (greeted host (gc ++ [gf])) cs f hv.1 hh rfl rfl
    h1 h2 h3 h4
  simp only [h7 (Or.inl (take_fmtEHLO _)), ne_eq, not_true_eq_false, if_false] at hneg
  refine ⟨?_, ?_⟩
  · constructor
    · intro h
      by_contra hlt
      have := h m.To.length (by omega)
      simp at this
    · intro h k hk
      rw [List.getElem?_eq_getElem (by omega)]
      rfl
  by_cases hcc : m.CC.length ≤ m.To.length
  · obtain ⟨rw', e, -, w⟩ := txLoop_accept env m hh ha hcc m.BCC.length 0
      (after (greeted host (gc ++ [gf])) (fmtEHLO (domain m)) (cs ++ [f])) ⟨rfl, rfl⟩ (by omega)
    have hs : session env m (opened env host) = (Exit.ret Ctl.next, rw') := by
      simp only [session, andThen, hgr, hneg, Nat.add_comm 1, e]
    rw [Send_valid env m host hv, connect_writes env m host hd, hs, w]
    constructor
    · simp only [connect, hd, hs]
      constructor
      · intro h; cases h
      · intro h; omega
    · simp [hcc, combinedWrites]
  · have hlt : m.To.length < m.CC.length := by omega
    obtain ⟨rw', e, w⟩ := txLoop_overrun env m hh ha hlt m.BCC.length 0
      (after (greeted host (gc ++ [gf])) (fmtEHLO (domain m)) (cs ++ [f])) ⟨rfl, rfl⟩ (by omega)
    have hs : session env m (opened env host) = (Exit.panic, rw') := by
      simp only [session, andThen, hgr, hneg, Nat.add_comm 1, e]
    rw [Send_valid env m host hv, connect_writes env m host hd, hs, w, writes_after,
      writes_greeted]
    constructor
    · have hp : (connect env m host).1 = Exit.panic := by simp only [connect, hd, hs]
      exact ⟨fun _ => hlt, fun _ => hp⟩
    · constructor
      · intro hmem
        exfalso
        have hE : str "DATA\r\n" ≠ fmtEHLO (domain m) :=
          fun h => absurd (h ▸ take_fmtEHLO (domain m)) (by decide)
        have hM : str "DATA\r\n" ≠ mailCmd m :=
          fun h => absurd (h ▸ take_mailCmd m) (by decide)
        have hR : ∀ a, str "DATA\r\n" ≠ rcptCmd a :=
          fun a h => absurd (h ▸ take_rcptCmd a) (by decide)
        simp only [List.nil_append, List.singleton_append, List.mem_cons, List.mem_append,
          List.mem_map] at hmem
        rcases hmem with h | h | h | h | h
        · exact hE h
        · rcases mem_bccWrites m _ _ h with h | h
          · exact hM h
          · exact absurd h (by decide)
        · exact hM h
        · obtain ⟨a, -, h⟩ := h; exact hR a h.symm
        · obtain ⟨a, -, h⟩ := h; exact hR a h.symm
      · intro h; exact absurd h hcc

/-- C18 at the message with two CC recipients and one To recipient: `Send` stops on an
index out of range and `DATA` is not written. -/
theorem send_cc_index_witness :
    Valid cc2Msg tpg ∧ Healthy okEnv ∧ cc2Msg.To.length < cc2Msg.CC.length ∧
    (Send okEnv cc2Msg tpg).1 = Exit.panic ∧
    str "DATA\r\n" ∉ writes (Send okEnv cc2Msg tpg).2.log :=
  have h := send_cc_index okEnv cc2Msg tpg [] (str "220 ready\r\n") (by decide) rfl
    (fun _ => rfl) (by decide) (by decide) (by decide) (by decide) okEnv_accepts
  ⟨by decide, fun _ => rfl, by decide, h.2.1.2 (by decide),
   fun hm => absurd (h.2.2.1 hm) (by decide)⟩

end Mail
